import Mathlib

/-!
Verification of the cznic/exp storage stack against its specification.

This file contains a shallow embedding, in Lean 4, of the parts of the
repository relevant to the frozen claims:

* `MemFiler` (src/lldb/memfiler.go): the paged in-memory Filer.
* `acidWriter0.writePacket` and `ACIDFiler0.recoverDb` (src/lldb/2pc.go).
* `bitFiler` / `RollbackFiler` (src/lldb/xact.go, the generation with
  `bfBits = 3`, dirty flags and `dumpDirty`).
* The block `Allocator` (src/unnamed/part_002) together with the free list
  table `flt` (src/lldb/flt.go).

Go `int64` values are modelled as `Int`; bytes as `Nat` (the code never
depends on byte overflow beyond the documented masks, which are written out
explicitly).  Go's arithmetic shift `off >> k` and mask `off & (2^k-1)` on
two's-complement int64 coincide with Euclidean division `off / 2^k` and
`off % 2^k` on `Int`, which is how they are rendered here.  Byte arrays and
slices are `List Nat`; page payloads are total functions `Nat → Nat`
(index ↦ byte, matching Go's zero-initialised fixed arrays); sparse page
maps are `Int → Option page`.  Loops that consume at least one byte per
iteration are written as structural recursion on an explicit iteration
bound (`fuel`) that the wrappers instantiate with the exact byte count, so
that every definition evaluates by `decide`/`rfl`.
-/

/-! ## MemFiler (src/lldb/memfiler.go) -/

/-- `pgSize = 1 << pgBits`, `pgBits = 16` (memfiler.go). -/
def pgSize : Nat := 65536

/-- A 64 KiB page: index ↦ byte.  Go's `*[pgSize]byte`. -/
def zeroPage : Nat → Nat := fun _ => 0

/-- Read a byte from an optional page; an absent page reads as zeros
(memfiler.go `ReadAt`: `pg = &zeroPage`). -/
def pageByte (pg : Option (Nat → Nat)) (i : Nat) : Nat :=
  (pg.getD zeroPage) i

/-- `MemFiler`: sparse page map plus size (memfiler.go). The `nest`
counter only gates Close/EndUpdate and is irrelevant to the claims. -/
structure MemFiler where
  m : Int → Option (Nat → Nat)
  size : Int

/-- A fresh `MemFiler` (memfiler.go `NewMemFiler`). -/
def MemFiler.new : MemFiler := ⟨fun _ => none, 0⟩

/-- The byte visible at absolute offset `o` (page map lookup; absent pages
read as zeros).  Used to state what `ReadAt` returns. -/
def memByte (f : MemFiler) (o : Int) : Nat :=
  pageByte (f.m (o / (pgSize : Int))) (o % (pgSize : Int)).toNat

/-- The copy loop of `MemFiler.ReadAt`, with an explicit iteration bound.
Each iteration copies `nc = min (min rem pgSize) (pgSize - pgO)` bytes from
page `pgI` starting at `pgO` (Go: `copy(b[:min(rem,pgSize)], pg[pgO:])`),
then advances to the next page.  `rem` decreases by `nc ≥ 1` per iteration,
so `fuel = rem` suffices. -/
def memReadLoopF (m : Int → Option (Nat → Nat)) :
    Nat → Int → Nat → Nat → List Nat
  | 0, _, _, _ => []
  | fuel + 1, pgI, pgO, rem =>
    if rem = 0 then []
    else
      (List.range (min (min rem pgSize) (pgSize - pgO))).map
          (fun i => pageByte (m pgI) (pgO + i)) ++
        memReadLoopF m fuel (pgI + 1) 0 (rem - min (min rem pgSize) (pgSize - pgO))

/-- The page offset `int(off & pgMask)` of an absolute offset. -/
def pgO (off : Int) : Nat := (off % (pgSize : Int)).toNat

/-- The page index `off >> pgBits` of an absolute offset. -/
def pgI (off : Int) : Int := off / (pgSize : Int)

/-- `MemFiler.ReadAt` (memfiler.go).  Takes the requested length
`blen = len(b)` and returns the bytes read together with the EOF flag
(`err == io.EOF`).  `avail = size - off`; if `len(b) ≥ avail` then
`rem = avail` and EOF is reported; the loop runs only while `avail > 0`. -/
def MemFiler.ReadAt (f : MemFiler) (blen : Nat) (off : Int) : List Nat × Bool :=
  let avail : Int := f.size - off
  if (blen : Int) ≥ avail then
    if 0 < avail then
      (memReadLoopF f.m avail.toNat (pgI off) (pgO off) avail.toNat, true)
    else ([], true)
  else
    (memReadLoopF f.m blen (pgI off) (pgO off) blen, false)

/-- The copy loop of `MemFiler.WriteAt`, with an explicit iteration bound.
Go per iteration: if the chunk is page-aligned, at least a full page long
and all zero (`bytes.Equal(b[:pgSize], zeroPage[:])`), the page is deleted;
otherwise the page is fetched (allocated zero-filled if absent) and
`nc = copy((*pg)[pgO:], b)` bytes are copied in.  `len b` decreases by
`nc ≥ 1` per iteration, so `fuel = len b` suffices. -/
def memWriteLoopF :
    Nat → (Int → Option (Nat → Nat)) → Int → Nat → List Nat →
      (Int → Option (Nat → Nat))
  | 0, m, _, _, _ => m
  | fuel + 1, m, pgIdx, pgOff, b =>
    if b.length = 0 then m
    else
      if pgOff = 0 ∧ pgSize ≤ b.length ∧ b.take pgSize = List.replicate pgSize 0 then
        memWriteLoopF fuel (fun k => if k = pgIdx then none else m k)
          (pgIdx + 1) 0 (b.drop pgSize)
      else
        memWriteLoopF fuel
          (fun k =>
            if k = pgIdx then
              some (fun i =>
                if pgOff ≤ i ∧ i < pgOff + min b.length (pgSize - pgOff) then
                  b.getD (i - pgOff) 0
                else pageByte (m pgIdx) i)
            else m k)
          (pgIdx + 1) 0 (b.drop (min b.length (pgSize - pgOff)))

/-- `MemFiler.WriteAt` (memfiler.go): run the copy loop, then
`size = max(size, off + len b)`. -/
def MemFiler.WriteAt (f : MemFiler) (b : List Nat) (off : Int) : MemFiler :=
  { m := memWriteLoopF b.length f.m (pgI off) (pgO off) b,
    size := max f.size (off + b.length) }

/-- First page deleted by `MemFiler.Truncate`:
`first := size >> pgBits; if size&pgMask != 0 { first++ }`. -/
def truncFirst (size : Int) : Int :=
  size / (pgSize : Int) + (if size % (pgSize : Int) ≠ 0 then 1 else 0)

/-- `MemFiler.Truncate` (memfiler.go).  `.error` is the `ErrINVAL` on a
negative size. -/
def MemFiler.Truncate (f : MemFiler) (size : Int) : Except Unit MemFiler :=
  if size < 0 then .error ()
  else if size = 0 then .ok MemFiler.new
  else
    .ok { m := fun k => if truncFirst size ≤ k ∧ k < truncFirst f.size then none else f.m k,
          size := size }

/-- `MemFiler.PunchHole` (memfiler.go): deletes the wholly covered pages.
`first`/`last` computed exactly as in the source (including its peculiar
`last--` condition). -/
def MemFiler.PunchHole (f : MemFiler) (off size : Int) : Except Unit MemFiler :=
  if off < 0 then .error ()
  else if size < 0 ∨ off + size > f.size then .error ()
  else
    let first := off / (pgSize : Int) +
      (if off % (pgSize : Int) ≠ 0 then 1 else 0)
    let off2 := off + size - 1
    let last0 := off2 / (pgSize : Int) -
      (if off2 % (pgSize : Int) ≠ 0 then 1 else 0)
    let last := min last0 (f.size / (pgSize : Int))
    .ok { m := fun k => if first ≤ k ∧ k ≤ last then none else f.m k, size := f.size }

/-! ## WAL packet framing (src/lldb/2pc.go, `acidWriter0.writePacket`) -/

/-- `binary.BigEndian.PutUint32` of `uint32 n`. -/
def be4 (n : Nat) : List Nat :=
  [n / 2 ^ 24 % 256, n / 2 ^ 16 % 256, n / 2 ^ 8 % 256, n % 256]

/-- `acidWriter0.writePacket` after scalar encoding: the bytes appended to
the WAL for a payload `b` — 4-byte big-endian length, the payload, then
`16 - (4 + len b) % 16` zero bytes when `(4 + len b) % 16 ≠ 0`
(Go: `pad[:16-m]`, `pad` a fresh zero array). -/
def writePacket (b : List Nat) : List Nat :=
  be4 b.length ++ b ++
    (if (4 + b.length) % 16 ≠ 0 then List.replicate (16 - (4 + b.length) % 16) 0 else [])

/-! ## Supporting lemmas for the MemFiler theorems -/

/-- Splitting offset arithmetic: a global offset decomposes into its page
index and page offset. -/
theorem pg_decomp (off : Int) : (pgI off) * (pgSize : Int) + (pgO off : Int) = off := by
  unfold pgI pgO pgSize
  omega

theorem pgO_lt (off : Int) : pgO off < pgSize := by
  unfold pgO pgSize
  omega

/-- What the `ReadAt` copy loop produces: the bytes visible at consecutive
global offsets starting at `pgIdx * pgSize + pgOff`. -/
theorem memReadLoopF_spec (m : Int → Option (Nat → Nat)) :
    ∀ fuel rem pgIdx pgOff, rem ≤ fuel → pgOff < pgSize →
      memReadLoopF m fuel pgIdx pgOff rem =
        (List.range rem).map (fun i : Nat =>
          pageByte (m ((pgIdx * (pgSize : Int) + (pgOff : Int) + (i : Int)) / (pgSize : Int)))
            ((pgIdx * (pgSize : Int) + (pgOff : Int) + (i : Int)) % (pgSize : Int)).toNat) := by
  intro fuel
  induction fuel with
  | zero =>
    intro rem pgIdx pgOff hrem _
    interval_cases rem
    simp [memReadLoopF]
  | succ fuel ih =>
    intro rem pgIdx pgOff hrem hlt
    by_cases h0 : rem = 0
    · subst h0
      simp [memReadLoopF]
    · rw [memReadLoopF, if_neg h0]
      set nc := min (min rem pgSize) (pgSize - pgOff) with hncdef
      have hncle : nc ≤ rem := by omega
      have hncpos : 0 < nc := by omega
      have hr : List.range rem
          = List.range nc ++ List.map (fun x => nc + x) (List.range (rem - nc)) := by
        conv_lhs => rw [show rem = nc + (rem - nc) by omega]
        exact List.range_add nc (rem - nc)
      rw [hr, List.map_append, List.map_map]
      congr 1
      · apply List.map_congr_left
        intro i hi
        have hi' : i < nc := List.mem_range.mp hi
        have hilt : pgOff + i < pgSize := by omega
        have h1 : (pgIdx * (pgSize : Int) + (pgOff : Int) + (i : Int)) / (pgSize : Int) = pgIdx := by
          unfold pgSize at hilt ⊢
          omega
        have h2 : ((pgIdx * (pgSize : Int) + (pgOff : Int) + (i : Int)) % (pgSize : Int)).toNat
            = pgOff + i := by
          unfold pgSize at hilt ⊢
          omega
        rw [h1, h2]
      · rw [ih (rem - nc) (pgIdx + 1) 0 (by omega) (by unfold pgSize; omega)]
        apply List.map_congr_left
        intro i hi
        rcases Nat.eq_zero_or_pos (rem - nc) with hz | hz
        · rw [hz] at hi
          simp at hi
        · have hfull : pgOff + nc = pgSize := by omega
          have harg : (pgIdx + 1) * (pgSize : Int) + ((0 : Nat) : Int) + (i : Int)
              = pgIdx * (pgSize : Int) + (pgOff : Int) + ((nc + i : Nat) : Int) := by
            have : ((pgOff : Int) + (nc : Int)) = (pgSize : Int) := by exact_mod_cast hfull
            push_cast
            linarith
          simp only [Function.comp_apply]
          rw [harg]

/-- C10 core: what `ReadAt` returns, for every offset. -/
theorem memFiler_ReadAt_eq (f : MemFiler) (blen : Nat) (off : Int) :
    (f.ReadAt blen off).1 =
      (List.range (max 0 (min (blen : Int) (f.size - off))).toNat).map
        (fun i : Nat => memByte f (off + i)) ∧
    ((f.ReadAt blen off).2 = true ↔ (blen : Int) ≥ f.size - off) := by
  have hloop : ∀ rem : Nat,
      memReadLoopF f.m rem (pgI off) (pgO off) rem =
        (List.range rem).map (fun i : Nat => memByte f (off + i)) := by
    intro rem
    rw [memReadLoopF_spec f.m rem rem (pgI off) (pgO off) le_rfl (pgO_lt off)]
    apply List.map_congr_left
    intro i _
    have harg : (pgI off) * (pgSize : Int) + (pgO off : Int) + (i : Int) = off + i := by
      conv_rhs => rw [← pg_decomp off]
    rw [harg]
    rfl
  unfold MemFiler.ReadAt
  by_cases hge : (blen : Int) ≥ f.size - off
  · by_cases hpos : 0 < f.size - off
    · simp only [hge, if_true, hpos, if_true]
      refine ⟨?_, by simp [hge]⟩
      rw [hloop]
      congr 2
      omega
    · simp only [hge, if_true, hpos, if_false]
      refine ⟨?_, by simp [hge]⟩
      have hz : (max 0 (min (blen : Int) (f.size - off))).toNat = 0 := by omega
      rw [hz]
      simp
  · simp only [hge, if_false]
    refine ⟨?_, by simp [hge]⟩
    rw [hloop]
    congr 2
    omega

/-- C10: for every MemFiler of size `s` and `ReadAt(b, off)` with
`off ≥ 0`, the call returns `n = max 0 (min (len b) (s - off))` bytes —
the bytes visible at offsets `off, off+1, …` with absent pages reading as
zeros — and reports `io.EOF` exactly when `len b ≥ s - off` (including the
boundary case `len b = s - off`, where all requested bytes are delivered,
and the case `off ≥ s`, where `n = 0`); otherwise the error is nil. -/
theorem memFiler_ReadAt_spec (f : MemFiler) (blen : Nat) (off : Int)
    (hoff : 0 ≤ off) :
    ((f.ReadAt blen off).1.length : Int) = max 0 (min (blen : Int) (f.size - off)) ∧
    (f.ReadAt blen off).1 =
      (List.range (max 0 (min (blen : Int) (f.size - off))).toNat).map
        (fun i : Nat => memByte f (off + i)) ∧
    ((f.ReadAt blen off).2 = true ↔ (blen : Int) ≥ f.size - off) := by
  obtain ⟨h1, h2⟩ := memFiler_ReadAt_eq f blen off
  refine ⟨?_, h1, h2⟩
  rw [h1]
  simp only [List.length_map, List.length_range]
  omega

/-- A concrete two-byte MemFiler used by the `memFiler_ReadAt_spec`
witness. -/
def rdFiler : MemFiler :=
  ⟨fun k => if k = 0 then some (fun i => if i = 0 then 7 else 9) else none, 2⟩

/-- Witness for `memFiler_ReadAt_spec`: reading 3 bytes at offset 0 from a
two-byte file returns 2 bytes and io.EOF. -/
theorem memFiler_ReadAt_spec_witness :
    (0 : Int) ≤ 0 ∧
    (((rdFiler.ReadAt 3 0).1.length : Int) = max 0 (min ((3 : Nat) : Int) (rdFiler.size - 0)) ∧
     (rdFiler.ReadAt 3 0).1 =
       (List.range (max 0 (min ((3 : Nat) : Int) (rdFiler.size - 0))).toNat).map
         (fun i : Nat => memByte rdFiler (0 + i)) ∧
     ((rdFiler.ReadAt 3 0).2 = true ↔ ((3 : Nat) : Int) ≥ rdFiler.size - 0)) :=
  ⟨le_refl 0, memFiler_ReadAt_spec rdFiler 3 0 (le_refl 0)⟩

/-! ## C9: the zero-page claim for MemFiler.WriteAt -/

/-- The write loop never touches pages below its starting page index. -/
theorem memWriteLoopF_lower (k : Int) :
    ∀ fuel m pgIdx pgOff b, k < pgIdx →
      memWriteLoopF fuel m pgIdx pgOff b k = m k := by
  intro fuel
  induction fuel with
  | zero =>
    intro m pgIdx pgOff b _
    rfl
  | succ fuel ih =>
    intro m pgIdx pgOff b hk
    rw [memWriteLoopF]
    by_cases h0 : b.length = 0
    · rw [if_pos h0]
    · rw [if_neg h0]
      by_cases hz : pgOff = 0 ∧ pgSize ≤ b.length ∧ b.take pgSize = List.replicate pgSize 0
      · rw [if_pos hz, ih _ _ _ _ (by omega)]
        simp only [if_neg (show ¬k = pgIdx by omega)]
      · rw [if_neg hz, ih _ _ _ _ (by omega)]
        simp only [if_neg (show ¬k = pgIdx by omega)]

/-- Counterexample to C9 as stated: writing the single zero byte `[0]` at
offset 0 of a fresh MemFiler allocates page 0, and the allocated page is
entirely zero — so after a write consisting only of zero bytes an all-zero
page is present in the page map. -/
theorem memFiler_zero_write_allocates_page :
    (MemFiler.new.WriteAt [0] 0).m 0 = some zeroPage := by
  show memWriteLoopF 1 (fun _ => none) (pgI 0) (pgO 0) [0] 0 = some zeroPage
  rw [memWriteLoopF]
  rw [if_neg (by decide)]
  rw [if_neg (by decide)]
  rw [show List.drop (min (List.length [0]) (pgSize - pgO 0)) [0] = [] by decide]
  rw [memWriteLoopF]
  have hp : pgI (0 : Int) = 0 := by decide
  simp only [if_pos rfl, hp, if_true]
  congr 1
  funext i
  by_cases hi : pgO 0 ≤ i ∧ i < pgO 0 + min (List.length [0]) (pgSize - pgO 0)
  · rw [if_pos hi]
    have : i = 0 := by
      revert hi
      simp only [List.length_cons, List.length_nil]
      unfold pgO pgSize
      omega
    subst this
    rfl
  · rw [if_neg hi]
    rfl

/-- C9 amended: only a page-aligned chunk covering a whole page with zero
bytes deallocates.  If `off` is page-aligned and the first `pgSize` bytes
of `b` are all zero (with `len b ≥ pgSize`), then after `WriteAt(b, off)`
the first written page is absent from the page map.  (Shorter or unaligned
zero writes may allocate, or leave present, an all-zero page, as
`memFiler_zero_write_allocates_page` shows.) -/
theorem memFiler_aligned_zero_page_write_deletes (f : MemFiler) (b : List Nat)
    (off : Int) (halign : off % (pgSize : Int) = 0)
    (hlen : pgSize ≤ b.length) (hzero : b.take pgSize = List.replicate pgSize 0) :
    (f.WriteAt b off).m (pgI off) = none := by
  show memWriteLoopF b.length f.m (pgI off) (pgO off) b (pgI off) = none
  obtain ⟨fuel, hfuel⟩ : ∃ fuel, b.length = fuel + 1 := by
    refine ⟨b.length - 1, ?_⟩
    have : 0 < b.length := by
      have : 0 < pgSize := by decide
      omega
    omega
  rw [hfuel, memWriteLoopF, if_neg (by omega)]
  have hO : pgO off = 0 := by
    unfold pgO
    omega
  rw [if_pos ⟨hO, hlen, hzero⟩]
  rw [memWriteLoopF_lower _ _ _ _ _ _ (by omega)]
  simp

/-- Witness for `memFiler_aligned_zero_page_write_deletes`: a full page of
zeros written at offset 0 leaves page 0 absent. -/
theorem memFiler_aligned_zero_page_write_deletes_witness :
    ((0 : Int) % (pgSize : Int) = 0 ∧
     pgSize ≤ (List.replicate pgSize 0).length ∧
     (List.replicate pgSize 0).take pgSize = List.replicate pgSize 0) ∧
    (MemFiler.new.WriteAt (List.replicate pgSize 0) 0).m (pgI 0) = none :=
  ⟨⟨by decide, by simp, by simp⟩,
   memFiler_aligned_zero_page_write_deletes MemFiler.new (List.replicate pgSize 0) 0
     (by decide) (by simp) (by simp)⟩

/-! ## C8: WAL packet framing -/

/-- C8: every WAL packet emitted by `acidWriter0.writePacket` is the 4-byte
big-endian payload length `L`, the `L` payload bytes, then exactly
`(16 - (4+L) % 16) % 16` zero bytes of padding, and its total length is a
multiple of 16 — so the WAL stays 16-byte aligned after every packet. -/
theorem writePacket_sixteen_aligned (b : List Nat) :
    writePacket b =
      be4 b.length ++ b ++ List.replicate ((16 - (4 + b.length) % 16) % 16) 0 ∧
    (writePacket b).length = 4 + b.length + (16 - (4 + b.length) % 16) % 16 ∧
    (writePacket b).length % 16 = 0 := by
  have hm : (4 + b.length) % 16 < 16 := Nat.mod_lt _ (by norm_num)
  have hshape : writePacket b =
      be4 b.length ++ b ++ List.replicate ((16 - (4 + b.length) % 16) % 16) 0 := by
    unfold writePacket
    by_cases h : (4 + b.length) % 16 = 0
    · rw [if_neg (by simp [h]), h]
      simp
    · rw [if_pos h]
      have : (16 - (4 + b.length) % 16) % 16 = 16 - (4 + b.length) % 16 :=
        Nat.mod_eq_of_lt (by omega)
      rw [this]
  have hlen : (writePacket b).length = 4 + b.length + (16 - (4 + b.length) % 16) % 16 := by
    rw [hshape]
    simp [be4]
    ring
  refine ⟨hshape, hlen, ?_⟩
  rw [hlen]
  omega

/-! ## C2: ACIDFiler0 recovery (src/lldb/2pc.go, `recoverDb`)

Scalar encoding/decoding (`EncodeScalars`/`DecodeScalars`) is an external
helper (spec 6.2), so the WAL is modelled at packet granularity: each
`readPacket` call either yields a decoded item list or fails
(short read / decode error, modelled as `none`).  `trailing` records
whether raw bytes remain in the WAL stream after the listed packets (the
checkpoint branch probes the stream with `f.Read(b1)` and requires it to
be exhausted). -/

/-- A decoded scalar (Go `interface{}` restricted to the codec's types). -/
inductive Scalar where
  | int (v : Int)
  | bytes (bs : List Nat)
  | str (st : String)
deriving DecidableEq

/-- WAL packet tags (2pc.go). -/
def wpt00Header : Int := 0
def wpt00WriteData : Int := 1
def wpt00Checkpoint : Int := 2
def walTypeACIDFiler0 : Int := 0

/-- The WAL file as seen by recovery: its byte size, the successive
`readPacket` results, and whether raw bytes remain after them. -/
structure WalFile where
  size : Int
  packets : List (Option (List Scalar))
  trailing : Bool

/-- Errors surfaced by the recovery model. -/
inductive RecErr where
  | invalidWAL
  | ioErr
  | typeAssertPanic
  | dbErr
deriving DecidableEq

/-- `binary.BigEndian.PutUint64(uint64 off)` as a B-tree key: the unsigned
64-bit value of `off` (byte-wise big-endian comparison = numeric order). -/
def keyOf (off : Int) : Nat := (off % (18446744073709551616 : Int)).toNat

/-- `int64(binary.BigEndian.Uint64 k)`: decode the key back to int64. -/
def keyBack (k : Nat) : Int :=
  if k < 9223372036854775808 then (k : Int) else (k : Int) - 18446744073709551616

/-- Insert or replace in the offset-sorted write map (the in-memory B-tree
`tr` of `recoverDb`, keyed by 8-byte big-endian offset). -/
def trInsert (k : Nat) (v : List Nat) : List (Nat × List Nat) → List (Nat × List Nat)
  | [] => [(k, v)]
  | (k0, v0) :: rest =>
    if k < k0 then (k, v) :: (k0, v0) :: rest
    else if k = k0 then (k, v) :: rest
    else (k0, v0) :: trInsert k v rest

/-- Apply the write map to `db` in ascending key order
(`db.WriteAt(v, int64(BigEndian.Uint64(k)))` per entry). -/
def applyWrites (db : MemFiler) : List (Nat × List Nat) → MemFiler
  | [] => db
  | (k, v) :: rest => applyWrites (db.WriteAt v (keyBack k)) rest

/-- The packet loop of `recoverDb` (2pc.go): `wpt00WriteData` packets
update the map, `wpt00Checkpoint` verifies the stream is exhausted, applies
the map, truncates `db` to the checkpoint size and reports success (after
which the caller's WAL is truncated to zero — the returned Bool).  Unknown
tags, malformed packets and bytes after the checkpoint are invalid-WAL;
`readPacket` failures (including EOF on a partial WAL) are returned
verbatim. -/
def recoverLoop (db : MemFiler) (tr : List (Nat × List Nat)) (trailing : Bool) :
    List (Option (List Scalar)) → Except RecErr (MemFiler × Bool)
  | [] => .error .ioErr
  | none :: _ => .error .ioErr
  | some items :: rest =>
    if items.length < 2 then .error .invalidWAL
    else
      match items.getD 0 (.str "") with
      | .int v =>
        if v = wpt00WriteData then
          if items.length ≠ 3 then .error .invalidWAL
          else
            match items.getD 1 (.str ""), items.getD 2 (.str "") with
            | .bytes b, .int off => recoverLoop db (trInsert (keyOf off) b tr) trailing rest
            | _, _ => .error .typeAssertPanic
        else if v = wpt00Checkpoint then
          if rest ≠ [] ∨ trailing then .error .invalidWAL
          else if items.length ≠ 2 then .error .invalidWAL
          else
            match items.getD 1 (.str "") with
            | .int sz =>
              match (applyWrites db tr).Truncate sz with
              | .error _ => .error .dbErr
              | .ok db2 => .ok (db2, true)
            | _ => .error .typeAssertPanic
        else .error .invalidWAL
      | _ => .error .invalidWAL

/-- `ACIDFiler0.recoverDb` (2pc.go).  NOTE the faithful rendering of the
source's size check: after a successful `Stat`, `err` is nil, and

    if fi.Size()%16 != 0 {
        return err
    }

returns that nil error, i.e. reports success without reading the WAL. -/
def recoverDb (wal : WalFile) (db : MemFiler) : Except RecErr (MemFiler × Bool) :=
  if wal.size % 16 ≠ 0 then
    .ok (db, false)
  else
    match wal.packets with
    | [] => .error .ioErr
    | none :: _ => .error .ioErr
    | some items :: rest =>
      if items.length ≠ 3 ∨ items.getD 0 (.str "") ≠ .int wpt00Header ∨
          items.getD 1 (.str "") ≠ .int walTypeACIDFiler0 then
        .error .invalidWAL
      else recoverLoop db [] wal.trailing rest

/-- C2: evaluating the recovery at a WAL of size 8 — non-zero and not a
multiple of 16.  The claim (and spec 4.3.4) requires an invalid-WAL error;
the code returns a nil error, leaves `db` untouched and performs no
recovery and no WAL truncation, because `return err` at the size check
returns the nil error of the preceding successful `Stat`. -/
theorem recoverDb_misaligned_wal_silently_succeeds :
    recoverDb ⟨8, [], false⟩ MemFiler.new = .ok (MemFiler.new, false) := by
  rfl

/-! ## bitFiler / RollbackFiler (src/lldb/xact.go, the `bfBits = 3`
generation with per-byte dirty flags, `link` and `dumpDirty`)

Pages are 8 bytes (`bfSize = 1 << 3`).  The `prev`/`next` pointer fields of
`bitPage` are modelled as page indices: `link` only ever points a page at
its immediate map neighbours, so the pointer graph is exactly an index
graph.  The parent Filer of a `bitFiler` is abstracted as the function of
bytes it makes visible (`ParentView`); `bitFiler.writeAt` reads the parent
through it when it creates a page, ignoring io.EOF as the source does. -/

/-- `bfSize = 1 << bfBits`, `bfBits = 3`. -/
def bfSize : Nat := 8

structure bitPage where
  prev : Option Int
  next : Option Int
  data : Nat → Nat
  flags : Nat → Bool
  dirty : Bool

/-- A zero `bitPage{}`. -/
def bitPage.empty : bitPage := ⟨none, none, fun _ => 0, fun _ => false, false⟩

structure bitFiler where
  m : Int → Option bitPage
  size : Int

/-- `newBitFiler(parent)`: empty page map, size taken from the parent. -/
def bitFiler.new (parentSize : Int) : bitFiler := ⟨fun _ => none, parentSize⟩

/-- What a parent Filer shows to a `bitFiler`: its visible bytes and its
size (reads past the size leave the fresh zero page untouched). -/
structure ParentView where
  byte : Int → Nat
  size : Int

/-- Page fill performed when `writeAt` creates a page:
`f.parent.ReadAt(pg.data[:], off&^bfMask)` on a fresh zero page, io.EOF
ignored — bytes past the parent's size stay zero. -/
def parentFill (p : ParentView) (pgIdx : Int) : Nat → Nat :=
  fun i => if pgIdx * (bfSize : Int) + (i : Int) < p.size then p.byte (pgIdx * (bfSize : Int) + i) else 0

/-- The copy loop of `bitFiler.writeAt` (xact.go).  Per iteration: fetch or
create (parent-filled) the page, `nc = copy(pg.data[pgO:], b)`, and when
`dirty` mark the page dirty and set the per-byte flags for `[pgO, pgO+nc)`
— the flags are set before `pgO` is reset, as in this generation of the
source.  `fuel = len b` bounds the iterations. -/
def bitWriteLoopF :
    Nat → (Int → Option bitPage) → ParentView → Int → Nat → List Nat → Bool →
      (Int → Option bitPage)
  | 0, m, _, _, _, _, _ => m
  | fuel + 1, m, p, pgIdx, pgOff, b, dirty =>
    if b.length = 0 then m
    else
      let pg := match m pgIdx with
        | some pg => pg
        | none => { bitPage.empty with data := parentFill p pgIdx }
      let nc := min b.length (bfSize - pgOff)
      let pg' : bitPage :=
        { pg with
          data := fun i => if pgOff ≤ i ∧ i < pgOff + nc then b.getD (i - pgOff) 0 else pg.data i,
          dirty := if dirty then true else pg.dirty,
          flags := if dirty then
              (fun i => if pgOff ≤ i ∧ i < pgOff + nc then true else pg.flags i)
            else pg.flags }
      bitWriteLoopF fuel (fun k => if k = pgIdx then some pg' else m k) p (pgIdx + 1) 0
        (b.drop nc) dirty

/-- `bitFiler.WriteAt` (i.e. `writeAt` with `dirty = true`). -/
def bitFiler.WriteAt (f : bitFiler) (p : ParentView) (b : List Nat) (off : Int) : bitFiler :=
  { m := bitWriteLoopF b.length f.m p (off / (bfSize : Int)) (off % (bfSize : Int)).toNat b true,
    size := max f.size (off + b.length) }

/-- `bitFiler.Truncate` (xact.go): negative size is `ErrINVAL`; size 0
clears the map; otherwise pages from `first` to `last` are deleted. -/
def bitFiler.Truncate (f : bitFiler) (size : Int) : Except Unit bitFiler :=
  if size < 0 then .error ()
  else if size = 0 then .ok ⟨fun _ => none, 0⟩
  else
    let first := size / (bfSize : Int) + (if size % (bfSize : Int) ≠ 0 then 1 else 0)
    let last := f.size / (bfSize : Int) + (if f.size % (bfSize : Int) ≠ 0 then 1 else 0)
    .ok { m := fun k => if first ≤ k ∧ k < last then none else f.m k, size := size }

/-- `bitFiler.link` (xact.go): for every page `pg` at index `k` whose
successor page exists and is dirty, set `nx.prev = pg` and `pg.next = nx`.
Rendered per page: `next` is set when the page at `k+1` exists and is
dirty; `prev` is set when this page is dirty and the page at `k-1`
exists. -/
def bitLink (m : Int → Option bitPage) : Int → Option bitPage :=
  fun k =>
    (m k).map (fun pg =>
      { pg with
        next := match m (k + 1) with
          | some nx => if nx.dirty then some (k + 1) else pg.next
          | none => pg.next,
        prev := match m (k - 1) with
          | some _ => if pg.dirty then some (k - 1) else pg.prev
          | none => pg.prev })

/-- The backward walk in `dumpDirty`:
`for pg.prev != nil && pg.prev.dirty { pg = pg.prev }`.  NOTE: the source
does not adjust `pgI` while walking back. -/
def walkBack : Nat → (Int → Option bitPage) → Int → Int
  | 0, _, cur => cur
  | fuel + 1, m, cur =>
    match m cur with
    | none => cur
    | some pg =>
      match pg.prev with
      | none => cur
      | some p =>
        match m p with
        | some ppg => if ppg.dirty then walkBack fuel m p else cur
        | none => cur

/-- The per-page flag scan of `dumpDirty`: maximal runs `[first, j)` of set
dirty bits, by leading/trailing edge detection over `i = 0 … bfSize-1`,
with a final run emitted if one is open at `i = bfSize`. -/
def scanAux (flags : Nat → Bool) :
    Nat → Nat → Bool → Option Nat → List (Nat × Nat) → List (Nat × Nat)
  | _, 0, _, first, acc =>
    match first with
    | some f0 => acc ++ [(f0, bfSize)]
    | none => acc
  | i, cnt + 1, last, first, acc =>
    let flag := flags i
    if flag ∧ ¬last then scanAux flags (i + 1) cnt flag (some i) acc
    else if ¬flag ∧ last then scanAux flags (i + 1) cnt flag none (acc ++ [(first.getD 0, i)])
    else scanAux flags (i + 1) cnt flag first acc

def scanRuns (flags : Nat → Bool) : List (Nat × Nat) :=
  scanAux flags 0 bfSize false none []

/-- The forward chain loop of `dumpDirty`: starting from the page at `cur`,
while the page exists and is dirty, emit one `WriteAt` per run at offset
`tracker * bfSize + first` (the source's `pgI<<bfBits + int64(i)`), clear
the dirty flag and follow `next`, incrementing the `tracker` index. -/
def chainLoopF :
    Nat → (Int → Option bitPage) → Int → Int → List (Int × List Nat) →
      ((Int → Option bitPage) × List (Int × List Nat))
  | 0, m, _, _, acc => (m, acc)
  | fuel + 1, m, cur, tracker, acc =>
    match m cur with
    | none => (m, acc)
    | some pg =>
      if ¬pg.dirty then (m, acc)
      else
        let ws := (scanRuns pg.flags).map (fun r =>
          ((tracker * (bfSize : Int) + (r.1 : Int)),
           (List.range (r.2 - r.1)).map (fun j => pg.data (r.1 + j))))
        let m' := fun k => if k = cur then some { pg with dirty := false } else m k
        match pg.next with
        | none => (m', acc ++ ws)
        | some nx => chainLoopF fuel m' nx (tracker + 1) (acc ++ ws)

/-- The outer map iteration of `dumpDirty` over the (nondeterministic) key
order `order`: skip clean pages; otherwise walk back along dirty `prev`
links — leaving the emission index `tracker` at the iteration key `k`, as
the source does — and run the chain loop. -/
def dumpOuter (fuel : Nat) :
    List Int → (Int → Option bitPage) → List (Int × List Nat) →
      ((Int → Option bitPage) × List (Int × List Nat))
  | [], m, acc => (m, acc)
  | k :: rest, m, acc =>
    match m k with
    | none => dumpOuter fuel rest m acc
    | some pg =>
      if ¬pg.dirty then dumpOuter fuel rest m acc
      else
        let start := walkBack fuel m k
        let (m', acc') := chainLoopF fuel m start k acc
        dumpOuter fuel rest m' acc'

/-- `bitFiler.dumpDirty` (xact.go): `link`, then the outer iteration.
`order` is the Go map iteration order (unspecified by the language);
`fuel` bounds the two inner while-loops, whose iteration counts are at
most the number of pages. -/
def bitFiler.dumpDirty (f : bitFiler) (order : List Int) (fuel : Nat) :
    bitFiler × List (Int × List Nat) :=
  let r := dumpOuter fuel order (bitLink f.m) []
  ({ f with m := r.1 }, r.2)

/-- Errors and faults of the RollbackFiler operations: `ErrPERM`,
`ErrINVAL`, and a Go runtime panic (failed type assertion /
nil dereference). -/
inductive RbErr where
  | errPERM
  | errINVAL
  | goPanic
deriving DecidableEq

/-- `RollbackFiler` (xact.go): the wrapped Filer (a MemFiler here, as in
the package's tests), the chain of open overlay `bitFiler`s — innermost
first; `r.bitFiler` is the head and each overlay's `parent` is the next
entry, or the wrapped Filer for the outermost — and the nesting counter
`tlevel`. -/
structure RollbackFiler where
  f : MemFiler
  stack : List bitFiler
  tlevel : Nat

/-- `NewRollbackFiler`. -/
def RollbackFiler.new (f : MemFiler) : RollbackFiler := ⟨f, [], 0⟩

/-- Bytes visible through a chain of overlays over the wrapped MemFiler:
a present page shows its own bytes, an absent page falls through to the
parent (zero past the parent's size). -/
def chainView : List bitFiler → MemFiler → ParentView
  | [], f => ⟨fun o => memByte f o, f.size⟩
  | bf :: rest, f =>
    let pv := chainView rest f
    ⟨fun o =>
      match bf.m (o / (bfSize : Int)) with
      | some pg => pg.data (o % (bfSize : Int)).toNat
      | none => if o < pv.size then pv.byte o else 0,
     bf.size⟩

/-- `RollbackFiler.BeginUpdate` (xact.go 1002-1014): push a fresh
`bitFiler` whose parent is the current overlay — or the wrapped Filer at
level 0 — and increment `tlevel`.  (`newBitFiler` only reads the parent's
size, which cannot fail here.) -/
def RollbackFiler.BeginUpdate (r : RollbackFiler) : RollbackFiler :=
  let parentSize := match r.stack with
    | [] => r.f.size
    | bf :: _ => bf.size
  { r with stack := bitFiler.new parentSize :: r.stack, tlevel := r.tlevel + 1 }

/-- `RollbackFiler.WriteAt`: `ErrPERM` outside a transaction, else write
into the current overlay. -/
def RollbackFiler.WriteAt (r : RollbackFiler) (b : List Nat) (off : Int) :
    Except RbErr RollbackFiler :=
  if r.tlevel = 0 then .error .errPERM
  else
    match r.stack with
    | [] => .error .goPanic
    | bf :: rest =>
      .ok { r with stack := bf.WriteAt (chainView rest r.f) b off :: rest }

/-- `RollbackFiler.Truncate`: `ErrPERM` outside a transaction, else
truncate the current overlay. -/
def RollbackFiler.Truncate (r : RollbackFiler) (size : Int) :
    Except RbErr RollbackFiler :=
  if r.tlevel = 0 then .error .errPERM
  else
    match r.stack with
    | [] => .error .goPanic
    | bf :: rest =>
      match bf.Truncate size with
      | .error _ => .error .errINVAL
      | .ok bf' => .ok { r with stack := bf' :: rest }

/-- `RollbackFiler.Rollback` (xact.go 1100-1108):

    r.bitFiler = r.bitFiler.parent.(*bitFiler)
    r.tlevel--

At nesting level 1 the parent of the overlay is the wrapped Filer — not a
`*bitFiler` — so the type assertion is a runtime panic. -/
def RollbackFiler.Rollback (r : RollbackFiler) : Except RbErr RollbackFiler :=
  if r.tlevel = 0 then .error .errPERM
  else
    match r.stack with
    | _ :: b2 :: rest => .ok { r with stack := b2 :: rest, tlevel := r.tlevel - 1 }
    | _ => .error .goPanic

/-- C1: evaluating `BeginUpdate; WriteAt([42], 0); Rollback` on a
RollbackFiler wrapping a fresh MemFiler.  The claim requires the whole
interleaving to complete without fault, discarding the overlay; instead the
closing `Rollback` is a Go runtime panic — the failed interface conversion
`r.bitFiler.parent.(*bitFiler)`, the parent being the wrapped Filer. -/
theorem rollback_level1_type_assertion_panics :
    (do
      let r1 := (RollbackFiler.new MemFiler.new).BeginUpdate
      let r2 ← r1.WriteAt [42] 0
      r2.Rollback) = .error RbErr.goPanic := by
  rfl

/-- C5: the `dumpDirty` offset bug evaluated.  Two adjacent dirty pages
(bytes 0‥15 written, pages 0 and 1 of the 8-byte-page overlay, every byte
flagged) flushed with the map iteration visiting page 1 first: the flush
walks back to page 0 but keeps `pgI = 1`, so it emits page 0's run at
offset 8 and page 1's run at offset 16 — instead of offsets 0 and 8 as the
claim (and spec 4.2.3) requires. -/
theorem dumpDirty_emits_shifted_offsets :
    (((bitFiler.new 0).WriteAt (chainView [] MemFiler.new) (List.replicate 16 1) 0).dumpDirty
        [1, 0] 4).2
      = [(8, List.replicate 8 1), (16, List.replicate 8 1)] := by
  rfl

/-! ## The block Allocator (src/unnamed/part_002) and FLT (src/lldb/flt.go)

The numeric helpers and tag constants live in the repository's falloc
helper file, which is not among the provided sources (only their callers
and the block-format documentation inside part_002 are).  They are
therefore modelled from the spec (3.1, 3.2, 4.4.1, 6.1) and from the block
layout documented in part_002 itself. -/

/-- Modelled from the spec: head tags (3.2) and tail content codes. -/
def tagUsedLong : Nat := 0xFC
def tagUsedRelocated : Nat := 0xFD
def tagFreeShort : Nat := 0xFE
def tagFreeLong : Nat := 0xFF
def tagNotCompressed : Nat := 0
def tagCompressed : Nat := 1

/-- Modelled from the spec (4.4.1): size-class bounds. -/
def maxShort : Nat := 251
def maxRq : Nat := 65787

/-- Modelled from the spec (3.1): handles are 56-bit. -/
def maxHandle : Int := 72057594037927935

/-- Modelled from the spec (3.4): the largest FLT bucket min size. -/
def maxFLTRq : Int := 4112

/-- Modelled from the spec / part_002 block layout: content length to atom
count — `A == (N+1)/16 + 1` for short blocks, `A == (N+3)/16 + 1` for long
blocks (Go integer division). -/
def n2atoms (n : Nat) : Nat :=
  if n ≤ maxShort then (n + 1) / 16 + 1 else (n + 3) / 16 + 1

/-- Modelled from the spec / part_002 block layout: zero padding between
content and tail CC — `15 - (N+1)%16` (short) / `15 - (N+3)%16` (long). -/
def n2padding (n : Nat) : Nat :=
  if n ≤ maxShort then 15 - (n + 1) % 16 else 15 - (n + 3) % 16

/-- Modelled from the spec (6.1, part_002): the long-block length field
`M = N % 0x10000` and its decoding. -/
def n2m (n : Nat) : Nat := n % 65536

def m2n (m : Nat) : Nat := if m ≤ maxShort then m + 65536 else m

/-- Modelled from the spec (3.1): `offset == 16 * (handle - 1)`. -/
def h2off (h : Int) : Int := (h - 1) * 16

/-- Modelled from the spec (3.1): `handle == offset / 16 + 1`. -/
def off2h (off : Int) : Int := off / 16 + 1

/-- Modelled from the spec (3.1, 6.1): decode a 7-byte big-endian handle
from the start of a buffer. -/
def b2h (bs : List Nat) : Int := (((bs.take 7).foldl (fun a x => a * 256 + x) 0 : Nat) : Int)

/-- Modelled from the spec (3.1, 6.1): encode a handle as 7 big-endian
bytes (its unsigned 56-bit value). -/
def h2b (h : Int) : List Nat :=
  [(h % 72057594037927936).toNat / 2 ^ 48 % 256,
   (h % 72057594037927936).toNat / 2 ^ 40 % 256,
   (h % 72057594037927936).toNat / 2 ^ 32 % 256,
   (h % 72057594037927936).toNat / 2 ^ 24 % 256,
   (h % 72057594037927936).toNat / 2 ^ 16 % 256,
   (h % 72057594037927936).toNat / 2 ^ 8 % 256,
   (h % 72057594037927936).toNat % 256]

/-- Errors of the Allocator model, mirroring the source's `ErrINVAL` and
the `ErrILSEQ` variants it raises, `io.ErrUnexpectedEOF`, and snappy
decode failure.  `fuelExhausted` marks the unreachable depth-0 case of the
bounded recursions (the source recursion depth is at most one, guarded by
`relocated` / `acceptRelocs`). -/
inductive AErr where
  | errINVAL
  | expFreeTag
  | errHead
  | errSmall
  | tailTag
  | expUsedTag
  | unexpReloc
  | errOther
  | unexpectedEOF
  | decodeErr
  | fuelExhausted
deriving DecidableEq

/-- The byte store under the Allocator (its Filer), byte-addressed. -/
structure GFiler where
  data : Int → Nat
  size : Int

/-- `Filer.WriteAt` as the allocator uses it (`Allocator.writeAt` demands
a full write): overwrite `[off, off+len b)` and extend the size. -/
def GFiler.writeAtF (f : GFiler) (b : List Nat) (off : Int) : GFiler :=
  { data := fun o => if off ≤ o ∧ o < off + b.length then b.getD (o - off).toNat 0 else f.data o,
    size := max f.size (off + b.length) }

/-- `Allocator.read`: `ReadAt` must return exactly `len b` bytes, which a
Filer does iff the request lies within the file; otherwise the short read
is turned into `ErrILSEQ{Type: ErrOther}`. -/
def GFiler.readF (f : GFiler) (n : Nat) (off : Int) : Except AErr (List Nat) :=
  if off + n ≤ f.size then .ok ((List.range n).map (fun i : Nat => f.data (off + i)))
  else .error .errOther

/-- `Filer.Truncate` as used by `free2`/`realloc` (discard beyond `size`;
the allocator re-writes whole blocks before ever reading grown space). -/
def GFiler.truncF (f : GFiler) (size : Int) : GFiler := { f with size := size }

/-- `Allocator.write`: consecutive full writes of the given parts. -/
def writeSeq (f : GFiler) (off : Int) : List (List Nat) → GFiler
  | [] => f
  | part :: rest => writeSeq (f.writeAtF part off) (off + part.length) rest

/-- An FLT slot (flt.go `fltSlot`): bucket min size and in-memory head.
`SetHead` also persists the head into the FLT region of the outer Filer —
a byte range that lies outside the allocator's inner window and is never
read back during operation — so the model keeps the in-memory field. -/
structure FltSlot where
  minSize : Int
  head : Int
deriving DecidableEq

/-- The `get` table of `newFlt`: for a request `rq`, the index of the
first slot (slots sorted by ascending `minSize`, starting at 1) with
`rq ≤ minSize`. -/
def fltGetIx (slots : List FltSlot) (rq : Int) : Nat :=
  slots.findIdx (fun s => rq ≤ s.minSize)

/-- The `put` table of `newFlt`: for an atom count, the index of the last
slot with `minSize ≤ atoms`. -/
def fltPutIx (slots : List FltSlot) (atoms : Int) : Nat :=
  slots.findIdx (fun s => atoms < s.minSize) - 1

/-- The in-memory free list table (flt.go `flt`). -/
structure Flt where
  slots : List FltSlot

/-- The slot index used by `head`/`setHead` for a block of `atoms`. -/
def Flt.putIndex (t : Flt) (atoms : Int) : Nat :=
  if atoms ≥ maxFLTRq then t.slots.length - 1 else fltPutIx t.slots atoms

/-- `flt.find` (flt.go): scan slots from the `get` index for the first
non-zero head; zero that head and return it.  (`needAtoms < 1` panics in
the source and is unreachable from `alloc`.) -/
def Flt.find (t : Flt) (needAtoms : Int) : Int × Flt :=
  let ix := if needAtoms ≥ maxFLTRq then t.slots.length - 1 else fltGetIx t.slots needAtoms
  match (t.slots.drop ix).findIdx? (fun s => s.head != 0) with
  | none => (0, t)
  | some j =>
    ((t.slots.getD (ix + j) ⟨0, 0⟩).head,
     ⟨t.slots.set (ix + j) { t.slots.getD (ix + j) ⟨0, 0⟩ with head := 0 }⟩)

/-- `flt.head` (flt.go). -/
def Flt.headOf (t : Flt) (atoms : Int) : Int :=
  (t.slots.getD (t.putIndex atoms) ⟨0, 0⟩).head

/-- `flt.setHead` (flt.go). -/
def Flt.setHead (t : Flt) (h atoms : Int) : Flt :=
  ⟨t.slots.set (t.putIndex atoms) { t.slots.getD (t.putIndex atoms) ⟨0, 0⟩ with head := h }⟩

/-- The Allocator (part_002): its (inner) Filer, the FLT, and the
compression switch. -/
structure Allocator where
  f : GFiler
  flt : Flt
  compress : Bool

/-- `Allocator.nfo` (part_002): read up to 22 bytes at the block start and
decode `(tag, size-in-atoms, prev, next)`; free blocks carry prev/next,
relocated blocks carry the target in `next`. -/
def Allocator.nfo (a : Allocator) (h : Int) : Except AErr (Nat × Int × Int × Int) :=
  let off := h2off h
  let rq : Int := if off + 22 ≥ a.f.size then a.f.size - off else 22
  if rq < 15 then .error .unexpectedEOF
  else do
    let buf ← a.f.readF rq.toNat off
    let tag := buf.getD 0 0
    if tag = tagUsedLong then
      .ok (tag, (n2atoms (m2n ((buf.getD 1 0) * 256 + buf.getD 2 0)) : Int), 0, 0)
    else if tag = tagFreeLong then
      if rq < 22 then .error .unexpectedEOF
      else .ok (tag, b2h (buf.drop 1), b2h (buf.drop 8), b2h (buf.drop 15))
    else if tag = tagUsedRelocated then
      .ok (tag, 1, 0, b2h (buf.drop 1))
    else if tag = tagFreeShort then
      .ok (tag, 1, b2h (buf.drop 1), b2h (buf.drop 8))
    else
      .ok (tag, (n2atoms tag : Int), 0, 0)

/-- `Allocator.leftNfo` (part_002): look at the 8 bytes before `h`; if the
byte right before the block carries a free tag, chase to the left
neighbour's head (one atom back for a short free block, `S` atoms back —
read from the tail size field — for a long one). -/
def Allocator.leftNfo (a : Allocator) (h : Int) : Except AErr (Nat × Int × Int × Int) :=
  if ¬h > 1 then .ok (0, 0, 0, 0)
  else do
    let buf ← a.f.readF 8 (h2off h - 8)
    let t := buf.getD 7 0
    if t = tagFreeShort then a.nfo (h - 1)
    else if t = tagFreeLong then a.nfo (h - b2h buf)
    else .ok (0, 0, 0, 0)

/-- `Allocator.prev` (part_002): set the prev link of the free block at
`h` (offset +1 for a short free block, +8 for a long one); a non-free tag
is `ErrILSEQ{ErrExpFreeTag}`. -/
def Allocator.prev (a : Allocator) (h p : Int) : Except AErr Allocator := do
  let b ← a.f.readF 1 (h2off h)
  let tag := b.getD 0 0
  if tag = tagFreeShort then .ok { a with f := a.f.writeAtF (h2b p) (h2off h + 1) }
  else if tag = tagFreeLong then .ok { a with f := a.f.writeAtF (h2b p) (h2off h + 8) }
  else .error .expFreeTag

/-- `Allocator.next` (part_002): set the next link of the free block at
`h` (offset +8 short, +15 long). -/
def Allocator.next (a : Allocator) (h n : Int) : Except AErr Allocator := do
  let b ← a.f.readF 1 (h2off h)
  let tag := b.getD 0 0
  if tag = tagFreeShort then .ok { a with f := a.f.writeAtF (h2b n) (h2off h + 8) }
  else if tag = tagFreeLong then .ok { a with f := a.f.writeAtF (h2b n) (h2off h + 15) }
  else .error .expFreeTag

/-- `Allocator.makeFree` (part_002): write the free-block image at `h`
(single-atom: tag/prev/next/tag in one atom; longer: head with size, prev,
next and the 8-byte size+tag tail), then fix the neighbours' links. -/
def Allocator.makeFree (a : Allocator) (h atoms prevH nextH : Int) : Except AErr Allocator := do
  let a1 : Allocator :=
    if atoms = 1 then
      { a with f := a.f.writeAtF ([tagFreeShort] ++ h2b prevH ++ h2b nextH ++ [tagFreeShort]) (h2off h) }
    else
      let f1 := a.f.writeAtF ([tagFreeLong] ++ h2b atoms ++ h2b prevH ++ h2b nextH) (h2off h)
      { a with f := f1.writeAtF (h2b atoms ++ [tagFreeLong]) (h2off (h + atoms) - 8) }
  let a2 ← if prevH ≠ 0 then a1.next prevH h else .ok a1
  if nextH ≠ 0 then a2.prev nextH h else .ok a2

/-- `Allocator.link` (part_002): push the free block at the head of its
bucket's list. -/
def Allocator.link (a : Allocator) (h atoms : Int) : Except AErr Allocator := do
  let nextH := a.flt.headOf atoms
  let a1 ← a.makeFree h atoms 0 nextH
  .ok { a1 with flt := a1.flt.setHead h atoms }

/-- `Allocator.unlink` (part_002): remove a free block from its bucket's
doubly linked list. -/
def Allocator.unlink (a : Allocator) (h atoms p n : Int) : Except AErr Allocator :=
  if p = 0 ∧ n = 0 then .ok { a with flt := a.flt.setHead 0 atoms }
  else if p = 0 ∧ n ≠ 0 then do
    let a1 ← a.prev n 0
    .ok { a1 with flt := a1.flt.setHead n atoms }
  else if p ≠ 0 ∧ n = 0 then a.next p 0
  else do
    let a1 ← a.next p n
    a1.prev n p

/-- `Allocator.free2` (part_002): coalesce with the free left/right
neighbours, unlinking them; truncate the file if the result ends at the
tail, otherwise link the coalesced block. -/
def Allocator.free2 (a : Allocator) (h atoms : Int) : Except AErr Allocator := do
  let sz := a.f.size
  let lres ← a.leftNfo h
  let latoms := if lres.1 ≠ tagFreeShort ∧ lres.1 ≠ tagFreeLong then 0 else lres.2.1
  let isTail := h2off h + atoms * 16 = sz
  let rres ← if isTail then pure ((0 : Nat), (0 : Int), (0 : Int), (0 : Int)) else a.nfo (h + atoms)
  let ratoms := if rres.1 ≠ tagFreeShort ∧ rres.1 ≠ tagFreeLong then 0 else rres.2.1
  if latoms = 0 ∧ ratoms = 0 then
    if isTail then .ok { a with f := a.f.truncF (h2off h) }
    else a.link h atoms
  else if latoms = 0 then do
    let a1 ← a.unlink (h + atoms) ratoms rres.2.2.1 rres.2.2.2
    a1.link h (atoms + ratoms)
  else if ratoms = 0 then do
    let a1 ← a.unlink (h - latoms) latoms lres.2.2.1 lres.2.2.2
    if isTail then .ok { a1 with f := a1.f.truncF (h2off (h - latoms)) }
    else a1.link (h - latoms) (latoms + atoms)
  else do
    let a1 ← a.unlink (h - latoms) latoms lres.2.2.1 lres.2.2.2
    let rres2 ← a1.nfo (h + atoms)
    let a2 ← a1.unlink (h + atoms) ratoms rres2.2.2.1 rres2.2.2.2
    a2.link (h - latoms) (latoms + atoms + ratoms)

/-- `Allocator.free` (part_002): decode the head; free blocks are
`ErrINVAL`; a relocated block frees its target first (rejecting a second
relocation), then the block itself is coalesced away by `free2`.  The
recursion depth is at most one (`acceptRelocs` is false in the recursive
call), so a bound of 2 is exact. -/
def Allocator.freeF : Nat → Allocator → Int → Int → Bool → Except AErr Allocator
  | 0, _, _, _, _ => .error .fuelExhausted
  | fuel + 1, a, h, src, acceptRelocs => do
    let info ← a.nfo h
    let tag := info.1
    let atoms := info.2.1
    if tag = tagUsedRelocated then
      if ¬acceptRelocs then .error .unexpReloc
      else do
        let a1 ← Allocator.freeF fuel a info.2.2.2 h false
        a1.free2 h atoms
    else if tag = tagFreeShort ∨ tag = tagFreeLong then .error .errINVAL
    else a.free2 h atoms

/-- `Allocator.Free` (part_002). -/
def Allocator.Free (a : Allocator) (handle : Int) : Except AErr Allocator :=
  if handle ≤ 0 ∨ handle > maxHandle then .error .errINVAL
  else Allocator.freeF 2 a handle 0 true

/-- The `allocatorBlock` scratch record of part_002 (`head[:headSize]` and
`tail[:tailSize]` are the bytes actually written; `padding` is always
zero). -/
structure allocatorBlock where
  headSize : Nat
  head : List Nat
  tail : List Nat
  tailSize : Nat
deriving DecidableEq

/-- `Allocator.makeUsedBlock` (part_002): reject contents above `maxRq`;
with compression on and `len b > 14`, snappy-encode and use the compressed
image only when it needs strictly fewer atoms; build the head (length byte,
or `0xFC` plus the 2-byte `n2m` field) and the tail CC byte.  Returns the
block record, the image to store, and its atom count.  `encode` stands for
the external `snappy.Encode`. -/
def Allocator.makeUsedBlock (a : Allocator) (encode : List Nat → List Nat) (b : List Nat) :
    Except AErr (allocatorBlock × List Nat × Nat) :=
  if b.length > maxRq then .error .errINVAL
  else
    let rqAtoms := n2atoms b.length
    let wnr : List Nat × Nat × Nat × Nat :=
      if a.compress = true ∧ b.length > 14 then
        let zbuf := encode b
        if n2atoms zbuf.length < rqAtoms then (zbuf, zbuf.length, n2atoms zbuf.length, tagCompressed)
        else (b, b.length, rqAtoms, tagNotCompressed)
      else (b, b.length, rqAtoms, tagNotCompressed)
    let c : allocatorBlock :=
      if wnr.2.1 ≤ maxShort then ⟨1, [wnr.2.1], [wnr.2.2.2], 1⟩
      else ⟨3, [tagUsedLong, n2m wnr.2.1 / 256 % 256, n2m wnr.2.1 % 256], [wnr.2.2.2], 1⟩
    .ok (c, wnr.1, wnr.2.2.1)

/-- `Allocator.writeUsedBlock` (part_002): head, content, zero padding,
tail CC, written consecutively from the block's offset. -/
def Allocator.writeUsedBlock (a : Allocator) (h : Int) (c : allocatorBlock) (b : List Nat) :
    Allocator :=
  let parts := [c.head.take c.headSize, b, List.replicate (n2padding b.length) 0, c.tail.take c.tailSize]
  { a with f := writeSeq a.f (h2off h) parts }

/-- `Allocator.alloc` (part_002): ask the FLT for a candidate; if none,
grow the file — the handle addresses the current tail.  Otherwise the
candidate must decode as a list-head free block big enough for the
request; it is unlinked, the remainder (if any) is re-linked at
`h + rqAtoms`, and the used block is written at `h`. -/
def Allocator.alloc (a : Allocator) (b : List Nat) (c : allocatorBlock) :
    Except AErr (Int × Allocator) :=
  let rqAtoms := n2atoms b.length
  let fr := a.flt.find (rqAtoms : Int)
  let a0 : Allocator := { a with flt := fr.2 }
  let h := fr.1
  if h = 0 then
    .ok (off2h a0.f.size, a0.writeUsedBlock (off2h a0.f.size) c b)
  else do
    let info ← a0.nfo h
    let tag := info.1
    let s := info.2.1
    if tag ≠ tagFreeShort ∧ tag ≠ tagFreeLong then .error .expFreeTag
    else if info.2.2.1 ≠ 0 then .error .errHead
    else if s < (rqAtoms : Int) then .error .errSmall
    else do
      let a1 ← a0.unlink h s info.2.2.1 info.2.2.2
      let a2 ← if s > (rqAtoms : Int) then a1.link (h + rqAtoms) (s - rqAtoms) else .ok a1
      .ok (h, a2.writeUsedBlock h c b)

/-- `Allocator.Alloc` (part_002). -/
def Allocator.Alloc (a : Allocator) (encode : List Nat → List Nat) (b : List Nat) :
    Except AErr (Int × Allocator) := do
  let r ← a.makeUsedBlock encode b
  a.alloc r.2.1 r.1

/-- `Allocator.Get` (part_002), with the `reloc` label rendered as bounded
recursion: the relocated branch retries at the target with
`relocated = true`, so the depth is at most one and a bound of 2 is exact.
`decode` stands for the external `snappy.Decode`.  `Get` only reads (it
returns no allocator); the source's only writes are to the scratch
decompression buffer `a.zbuf`. -/
def Allocator.getF : Nat → Allocator → (List Nat → Except Unit (List Nat)) → Int → Bool →
    Except AErr (List Nat)
  | 0, _, _, _, _ => .error .fuelExhausted
  | fuel + 1, a, decode, handle, relocated =>
    if handle ≤ 0 ∨ handle > maxHandle then .error .errINVAL
    else do
      let off := h2off handle
      let first ← a.f.readF 16 off
      let tag := first.getD 0 0
      if tag = 0 then .ok []
      else if tag = tagUsedLong then do
        let dlen := m2n ((first.getD 1 0) * 256 + first.getD 2 0)
        let cc ← a.f.readF 1 (off + 16 * (n2atoms dlen : Int) - 1)
        if cc.getD 0 0 = tagNotCompressed then a.f.readF dlen (off + 3)
        else if cc.getD 0 0 = tagCompressed then do
          let z ← a.f.readF dlen (off + 3)
          match decode z with
          | .ok r => .ok r
          | .error _ => .error .decodeErr
        else .error .tailTag
      else if tag = tagUsedRelocated then
        if relocated then .error .unexpReloc
        else Allocator.getF fuel a decode (b2h (first.drop 1)) true
      else if tag = tagFreeShort ∨ tag = tagFreeLong then .error .expUsedTag
      else
        if n2atoms tag = 1 then
          if first.getD 15 0 = tagNotCompressed then .ok ((first.drop 1).take tag)
          else if first.getD 15 0 = tagCompressed then
            match decode ((first.drop 1).take tag) with
            | .ok r => .ok r
            | .error _ => .error .decodeErr
          else .error .tailTag
        else do
          let cc ← a.f.readF 1 (off + 16 * (n2atoms tag : Int) - 1)
          if cc.getD 0 0 = tagNotCompressed then a.f.readF tag (off + 1)
          else if cc.getD 0 0 = tagCompressed then do
            let z ← a.f.readF tag (off + 1)
            match decode z with
            | .ok r => .ok r
            | .error _ => .error .decodeErr
          else .error .tailTag

/-- `Allocator.Get` (part_002). -/
def Allocator.Get (a : Allocator) (decode : List Nat → Except Unit (List Nat)) (handle : Int) :
    Except AErr (List Nat) :=
  Allocator.getF 2 a decode handle false

/-! ## Byte-level toolkit for the Allocator theorems -/

theorem writeAtF_size (f : GFiler) (b : List Nat) (off : Int)
    (h : off + b.length ≤ f.size) : (f.writeAtF b off).size = f.size := by
  unfold GFiler.writeAtF
  simp only
  omega

theorem writeAtF_size_ge (f : GFiler) (b : List Nat) (off : Int) :
    f.size ≤ (f.writeAtF b off).size ∧ off + b.length ≤ (f.writeAtF b off).size := by
  unfold GFiler.writeAtF
  constructor
  · exact le_max_left _ _
  · exact le_max_right _ _

theorem writeAtF_data_outside (f : GFiler) (b : List Nat) (off o : Int)
    (h : o < off ∨ off + b.length ≤ o) : (f.writeAtF b off).data o = f.data o := by
  unfold GFiler.writeAtF
  simp only
  rw [if_neg (by omega)]

theorem writeAtF_data_inside (f : GFiler) (b : List Nat) (off o : Int)
    (h1 : off ≤ o) (h2 : o < off + b.length) :
    (f.writeAtF b off).data o = b.getD (o - off).toNat 0 := by
  unfold GFiler.writeAtF
  simp only
  rw [if_pos ⟨h1, h2⟩]

theorem getD_range_map (g : Nat → Nat) (n j : Nat) (hj : j < n) :
    ((List.range n).map g).getD j 0 = g j := by
  rw [List.getD_eq_getElem?_getD]
  rw [List.getElem?_map]
  rw [List.getElem?_range hj]
  rfl

theorem getD_drop (l : List Nat) (m j : Nat) :
    (l.drop m).getD j 0 = l.getD (m + j) 0 := by
  rw [List.getD_eq_getElem?_getD, List.getD_eq_getElem?_getD, List.getElem?_drop]

theorem length_drop_ge (l : List Nat) (m k : Nat) (h : m + k ≤ l.length) :
    k ≤ (l.drop m).length := by
  simp [List.length_drop]
  omega

/-- `readF` returns the image bytes when the file agrees with an image on
the read window. -/
theorem readF_eq_of_agree (f : GFiler) (n : Nat) (off : Int) (img : List Nat)
    (hsz : off + (n : Int) ≤ f.size) (hag : ∀ j : Nat, j < n → f.data (off + j) = img.getD j 0) :
    f.readF n off = .ok ((List.range n).map (fun j => img.getD j 0)) := by
  unfold GFiler.readF
  rw [if_pos hsz]
  congr 1
  apply List.map_congr_left
  intro j hj
  exact hag j (List.mem_range.mp hj)

theorem readF_congr (f1 f2 : GFiler) (n : Nat) (off : Int)
    (hs : f1.size = f2.size)
    (hag : ∀ o : Int, off ≤ o → o < off + n → f1.data o = f2.data o) :
    f1.readF n off = f2.readF n off := by
  unfold GFiler.readF
  rw [hs]
  by_cases h : off + (n : Int) ≤ f2.size
  · rw [if_pos h, if_pos h]
    congr 1
    apply List.map_congr_left
    intro j hj
    have := List.mem_range.mp hj
    exact hag (off + j) (by omega) (by omega)
  · rw [if_neg h, if_neg h]

/-- `b2h` written out over the first seven bytes. -/
theorem b2h_getD (bs : List Nat) (h7 : 7 ≤ bs.length) :
    b2h bs = ((((((((bs.getD 0 0 * 256 + bs.getD 1 0) * 256 + bs.getD 2 0) * 256 +
      bs.getD 3 0) * 256 + bs.getD 4 0) * 256 + bs.getD 5 0) * 256 + bs.getD 6 0 : Nat) : Int)) := by
  rcases bs with _ | ⟨b0, bs⟩
  · simp at h7
  rcases bs with _ | ⟨b1, bs⟩
  · simp at h7
  rcases bs with _ | ⟨b2, bs⟩
  · simp at h7
  rcases bs with _ | ⟨b3, bs⟩
  · simp at h7
  rcases bs with _ | ⟨b4, bs⟩
  · simp at h7
  rcases bs with _ | ⟨b5, bs⟩
  · simp at h7
  rcases bs with _ | ⟨b6, bs⟩
  · simp at h7
  simp [b2h, List.take, List.getD]

theorem h2b_length (x : Int) : (h2b x).length = 7 := rfl

/-- Round trip: decoding the 7 encoded bytes of a handle in range gives the
handle back. -/
theorem b2h_h2b (x : Int) (h0 : 0 ≤ x) (h1 : x ≤ maxHandle) : b2h (h2b x) = x := by
  rw [b2h_getD _ (by rw [h2b_length])]
  simp only [h2b, List.getD_cons_zero, List.getD_cons_succ]
  unfold maxHandle at h1
  omega

/-! ## C7: the compression decision -/

/-- C7: with compression enabled, `makeUsedBlock` (used by both `Alloc` and
`Realloc`) stores the snappy-compressed image with tail content code 1
exactly when `len b > 14` and the compressed form needs strictly fewer
atoms; in every other case the content is stored uncompressed with tail
content code 0 (and the atom count is that of the uncompressed form). -/
theorem makeUsedBlock_compresses_iff (a : Allocator) (encode : List Nat → List Nat)
    (b : List Nat) (hcmp : a.compress = true) (hlen : b.length ≤ maxRq) :
    ((b.length > 14 ∧ n2atoms (encode b).length < n2atoms b.length) →
      ∃ c, a.makeUsedBlock encode b = .ok (c, encode b, n2atoms (encode b).length) ∧
        c.tail.take c.tailSize = [tagCompressed]) ∧
    (¬(b.length > 14 ∧ n2atoms (encode b).length < n2atoms b.length) →
      ∃ c, a.makeUsedBlock encode b = .ok (c, b, n2atoms b.length) ∧
        c.tail.take c.tailSize = [tagNotCompressed]) := by
  constructor
  · rintro ⟨hgt, hlt⟩
    refine ⟨if (encode b).length ≤ maxShort then ⟨1, [(encode b).length], [tagCompressed], 1⟩
        else ⟨3, [tagUsedLong, n2m (encode b).length / 256 % 256, n2m (encode b).length % 256],
          [tagCompressed], 1⟩, ?_, ?_⟩
    · unfold Allocator.makeUsedBlock
      rw [if_neg (by omega)]
      simp only [if_pos (⟨hcmp, hgt⟩ : a.compress = true ∧ b.length > 14), if_pos hlt]
    · by_cases hsh : (encode b).length ≤ maxShort <;>
        simp [if_pos, if_neg, hsh, List.take]
  · intro hnot
    refine ⟨if b.length ≤ maxShort then ⟨1, [b.length], [tagNotCompressed], 1⟩
        else ⟨3, [tagUsedLong, n2m b.length / 256 % 256, n2m b.length % 256],
          [tagNotCompressed], 1⟩, ?_, ?_⟩
    · unfold Allocator.makeUsedBlock
      rw [if_neg (by omega)]
      by_cases hgt : b.length > 14
      · have hlt : ¬n2atoms (encode b).length < n2atoms b.length := fun h => hnot ⟨hgt, h⟩
        simp only [if_pos (⟨hcmp, hgt⟩ : a.compress = true ∧ b.length > 14), if_neg hlt]
      · simp only [if_neg (by simp [hgt] : ¬(a.compress = true ∧ b.length > 14))]
    · by_cases hgt : b.length > 14
      · have hlt : ¬n2atoms (encode b).length < n2atoms b.length := fun h => hnot ⟨hgt, h⟩
        by_cases hsh : b.length ≤ maxShort <;>
          simp [if_pos, if_neg, hsh, hlt, List.take]
      · by_cases hsh : b.length ≤ maxShort <;>
          simp [if_pos, if_neg, hsh, hgt, List.take]

/-- Witness for `makeUsedBlock_compresses_iff`: 15 bytes whose mock
encoding is a single byte compress (tail 1); the identity encoding does
not (tail 0). -/
theorem makeUsedBlock_compresses_iff_witness :
    ((Allocator.mk ⟨fun _ => 0, 0⟩ ⟨[]⟩ true).compress = true ∧
      (List.replicate 15 7).length ≤ maxRq) ∧
    (((List.replicate 15 7).length > 14 ∧
        n2atoms ((fun _ => [9]) (List.replicate 15 7)).length < n2atoms (List.replicate 15 7).length) →
      ∃ c, (Allocator.mk ⟨fun _ => 0, 0⟩ ⟨[]⟩ true).makeUsedBlock (fun _ => [9]) (List.replicate 15 7) =
          .ok (c, (fun _ => [9]) (List.replicate 15 7), n2atoms ((fun _ => [9]) (List.replicate 15 7)).length) ∧
        c.tail.take c.tailSize = [tagCompressed]) :=
  ⟨⟨rfl, by decide⟩,
   (makeUsedBlock_compresses_iff (Allocator.mk ⟨fun _ => 0, 0⟩ ⟨[]⟩ true) (fun _ => [9])
     (List.replicate 15 7) rfl (by decide)).1⟩

/-! ## C6: Get and relocation -/

/-- One unfolding of the bounded `getF` recursion. -/
theorem getF_succ (n : Nat) (a : Allocator) (decode : List Nat → Except Unit (List Nat))
    (handle : Int) (relocated : Bool) :
    Allocator.getF (n + 1) a decode handle relocated =
      (if handle ≤ 0 ∨ handle > maxHandle then .error .errINVAL
      else do
        let off := h2off handle
        let first ← a.f.readF 16 off
        let tag := first.getD 0 0
        if tag = 0 then .ok []
        else if tag = tagUsedLong then do
          let dlen := m2n ((first.getD 1 0) * 256 + first.getD 2 0)
          let cc ← a.f.readF 1 (off + 16 * (n2atoms dlen : Int) - 1)
          if cc.getD 0 0 = tagNotCompressed then a.f.readF dlen (off + 3)
          else if cc.getD 0 0 = tagCompressed then do
            let z ← a.f.readF dlen (off + 3)
            match decode z with
            | .ok r => .ok r
            | .error _ => .error .decodeErr
          else .error .tailTag
        else if tag = tagUsedRelocated then
          if relocated then .error .unexpReloc
          else Allocator.getF n a decode (b2h (first.drop 1)) true
        else if tag = tagFreeShort ∨ tag = tagFreeLong then .error .expUsedTag
        else
          if n2atoms tag = 1 then
            if first.getD 15 0 = tagNotCompressed then .ok ((first.drop 1).take tag)
            else if first.getD 15 0 = tagCompressed then
              match decode ((first.drop 1).take tag) with
              | .ok r => .ok r
              | .error _ => .error .decodeErr
            else .error .tailTag
          else do
            let cc ← a.f.readF 1 (off + 16 * (n2atoms tag : Int) - 1)
            if cc.getD 0 0 = tagNotCompressed then a.f.readF tag (off + 1)
            else if cc.getD 0 0 = tagCompressed then do
              let z ← a.f.readF tag (off + 1)
              match decode z with
              | .ok r => .ok r
              | .error _ => .error .decodeErr
            else .error .tailTag) := rfl

/-- C6: `Get` on a block whose head tag is `0xFD` (relocated) reads the
target handle from bytes 1–7 and restarts decoding at the target exactly
once; a second relocation at the target is the structural error
`ErrUnexpReloc`; a free tag (`0xFE`/`0xFF`) at the handle — or at the
relocation target — is the structural error `ErrExpUsedTag`.  (`Get` never
mutates allocator state: in the model it returns no allocator at all, and
in the source its only writes are to the scratch buffer `a.zbuf`.) -/
theorem get_relocated_once (a : Allocator) (decode : List Nat → Except Unit (List Nat))
    (h : Int) (first : List Nat)
    (hh : 0 < h ∧ h ≤ maxHandle)
    (hfirst : a.f.readF 16 (h2off h) = .ok first) :
    (first.getD 0 0 = tagUsedRelocated →
      a.Get decode h = Allocator.getF 1 a decode (b2h (first.drop 1)) true) ∧
    ((first.getD 0 0 = tagFreeShort ∨ first.getD 0 0 = tagFreeLong) →
      a.Get decode h = .error .expUsedTag) ∧
    (∀ tfirst : List Nat, first.getD 0 0 = tagUsedRelocated →
      0 < b2h (first.drop 1) → b2h (first.drop 1) ≤ maxHandle →
      a.f.readF 16 (h2off (b2h (first.drop 1))) = .ok tfirst →
      tfirst.getD 0 0 = tagUsedRelocated →
      a.Get decode h = .error .unexpReloc) ∧
    (∀ tfirst : List Nat, first.getD 0 0 = tagUsedRelocated →
      0 < b2h (first.drop 1) → b2h (first.drop 1) ≤ maxHandle →
      a.f.readF 16 (h2off (b2h (first.drop 1))) = .ok tfirst →
      (tfirst.getD 0 0 = tagFreeShort ∨ tfirst.getD 0 0 = tagFreeLong) →
      a.Get decode h = .error .expUsedTag) := by
  have hstep : a.Get decode h = Allocator.getF (1 + 1) a decode h false := rfl
  have hone : ∀ g r, Allocator.getF 1 a decode g r = Allocator.getF (0 + 1) a decode g r :=
    fun _ _ => rfl
  refine ⟨?_, ?_, ?_, ?_⟩
  · intro htag
    have htag' : first[0]?.getD 0 = 253 := by
      simpa [List.getD_eq_getElem?_getD, tagUsedRelocated] using htag
    rw [hstep, getF_succ, if_neg (by omega)]
    simp only [hfirst, bind, Except.bind]
    simp [htag', tagUsedLong, tagUsedRelocated, List.drop_one]
  · intro htag
    rw [hstep, getF_succ, if_neg (by omega)]
    simp only [hfirst, bind, Except.bind]
    rcases htag with hv | hv
    · have hv' : first[0]?.getD 0 = 254 := by
        simpa [List.getD_eq_getElem?_getD, tagFreeShort] using hv
      simp [hv', tagUsedLong, tagUsedRelocated, tagFreeShort, tagFreeLong]
    · have hv' : first[0]?.getD 0 = 255 := by
        simpa [List.getD_eq_getElem?_getD, tagFreeLong] using hv
      simp [hv', tagUsedLong, tagUsedRelocated, tagFreeShort, tagFreeLong]
  · intro tfirst htag htgt1 htgt2 htfirst httag
    have htag' : first[0]?.getD 0 = 253 := by
      simpa [List.getD_eq_getElem?_getD, tagUsedRelocated] using htag
    have httag' : tfirst[0]?.getD 0 = 253 := by
      simpa [List.getD_eq_getElem?_getD, tagUsedRelocated] using httag
    simp only [List.drop_one] at htgt1 htgt2 htfirst
    rw [hstep, getF_succ, if_neg (by omega)]
    simp only [hfirst, bind, Except.bind]
    simp only [htag', tagUsedLong, tagUsedRelocated, List.drop_one]
    norm_num
    rw [hone, getF_succ, if_neg (by omega)]
    simp only [htfirst, bind, Except.bind]
    have hrange : ¬(b2h first.tail ≤ 0 ∨ maxHandle < b2h first.tail) := by omega
    simp [htag', httag', hrange, tagUsedLong, tagUsedRelocated]
  · intro tfirst htag htgt1 htgt2 htfirst httag
    have htag' : first[0]?.getD 0 = 253 := by
      simpa [List.getD_eq_getElem?_getD, tagUsedRelocated] using htag
    simp only [List.drop_one] at htgt1 htgt2 htfirst
    rw [hstep, getF_succ, if_neg (by omega)]
    simp only [hfirst, bind, Except.bind]
    simp only [htag', tagUsedLong, tagUsedRelocated, List.drop_one]
    norm_num
    rw [hone, getF_succ, if_neg (by omega)]
    simp only [htfirst, bind, Except.bind]
    have hrange : ¬(b2h first.tail ≤ 0 ∨ maxHandle < b2h first.tail) := by omega
    rcases httag with hv | hv
    · have hv' : tfirst[0]?.getD 0 = 254 := by
        simpa [List.getD_eq_getElem?_getD, tagFreeShort] using hv
      simp [htag', hv', hrange, tagUsedLong, tagUsedRelocated, tagFreeShort, tagFreeLong]
    · have hv' : tfirst[0]?.getD 0 = 255 := by
        simpa [List.getD_eq_getElem?_getD, tagFreeLong] using hv
      simp [htag', hv', hrange, tagUsedLong, tagUsedRelocated, tagFreeShort, tagFreeLong]

/-- A byte-exact file image as a `GFiler` (reads past the end see zeros,
matching a `MemFiler` backing; `readF` never reaches them). -/
def fileOf (bs : List Nat) : GFiler :=
  ⟨fun o => if 0 ≤ o ∧ o < (bs.length : Int) then bs.getD o.toNat 0 else 0, (bs.length : Int)⟩

/-- Two relocated blocks pointing at each other (handles 1 and 2). -/
def relocDemo : Allocator :=
  ⟨fileOf ([tagUsedRelocated] ++ h2b 2 ++ List.replicate 8 0 ++
           [tagUsedRelocated] ++ h2b 1 ++ List.replicate 8 0), ⟨[]⟩, false⟩

def relocFirst : List Nat := [253, 0, 0, 0, 0, 0, 0, 2, 0, 0, 0, 0, 0, 0, 0, 0]

def relocTFirst : List Nat := [253, 0, 0, 0, 0, 0, 0, 1, 0, 0, 0, 0, 0, 0, 0, 0]

/-- Witness for `get_relocated_once`: a `Get` on a relocated block whose
target is itself relocated is the structural error `ErrUnexpReloc`. -/
theorem get_relocated_once_witness :
    ((0 < (1 : Int) ∧ (1 : Int) ≤ maxHandle) ∧
      relocDemo.f.readF 16 (h2off 1) = .ok relocFirst) ∧
    relocDemo.Get (fun _ => .error ()) 1 = .error AErr.unexpReloc :=
  ⟨⟨⟨by decide, by decide⟩, rfl⟩,
   (get_relocated_once relocDemo (fun _ => .error ()) 1 relocFirst ⟨by decide, by decide⟩
      rfl).2.2.1 relocTFirst (by decide) (by decide) (by decide) rfl (by decide)⟩

/-! ## FLT bookkeeping lemmas -/

theorem findIdx_minSize_eq (p : Int → Bool) :
    ∀ l1 l2 : List FltSlot, l1.map FltSlot.minSize = l2.map FltSlot.minSize →
      l1.findIdx (fun s => p s.minSize) = l2.findIdx (fun s => p s.minSize)
  | [], [], _ => rfl
  | [], _ :: _, h => by simp at h
  | _ :: _, [], h => by simp at h
  | a :: l1, b :: l2, h => by
    simp only [List.map_cons, List.cons.injEq] at h
    rw [List.findIdx_cons, List.findIdx_cons, h.1,
      findIdx_minSize_eq p l1 l2 h.2]

theorem map_minSize_set :
    ∀ (l : List FltSlot) (i : Nat) (x : Int),
      (l.set i { l.getD i ⟨0, 0⟩ with head := x }).map FltSlot.minSize =
        l.map FltSlot.minSize
  | [], _, _ => rfl
  | a :: l, 0, x => by simp [List.getD_cons_zero]
  | a :: l, i + 1, x => by
    simp only [List.getD_cons_succ, List.set_cons_succ, List.map_cons]
    rw [map_minSize_set l i x]

theorem getD_set_self (v d : FltSlot) :
    ∀ (l : List FltSlot) (i : Nat), i < l.length → (l.set i v).getD i d = v
  | [], i, h => by simp at h
  | a :: l, 0, _ => rfl
  | a :: l, i + 1, h => by
    simp only [List.set_cons_succ, List.getD_cons_succ]
    exact getD_set_self v d l i (by simpa using h)

theorem mem_map_head_set (v : FltSlot) (g : Int) :
    ∀ (l : List FltSlot) (i : Nat), g ∈ (l.set i v).map FltSlot.head →
      g ∈ l.map FltSlot.head ∨ g = v.head
  | [], i, h => by simp at h
  | a :: l, 0, h => by
    simp only [List.set_cons_zero, List.map_cons, List.mem_cons] at h
    rcases h with h | h
    · right; omega
    · left; simp [h]
  | a :: l, i + 1, h => by
    simp only [List.set_cons_succ, List.map_cons, List.mem_cons] at h ⊢
    rcases h with h | h
    · left; left; omega
    · rcases mem_map_head_set v g l i h with h' | h'
      · left; right; exact h'
      · right; exact h'

/-- `setHead` keeps the bucket geometry (lengths and min sizes). -/
theorem setHead_minSize (t : Flt) (v atoms : Int) :
    (t.setHead v atoms).slots.map FltSlot.minSize = t.slots.map FltSlot.minSize :=
  map_minSize_set t.slots (t.putIndex atoms) v

theorem putIndex_congr (t1 t2 : Flt)
    (h : t1.slots.map FltSlot.minSize = t2.slots.map FltSlot.minSize) (atoms : Int) :
    t1.putIndex atoms = t2.putIndex atoms := by
  unfold Flt.putIndex fltPutIx
  have hlen : t1.slots.length = t2.slots.length := by
    have := congrArg List.length h
    simpa using this
  rw [hlen, findIdx_minSize_eq (fun m => atoms < m) t1.slots t2.slots h]

theorem setHead_headOf (t : Flt) (v atoms : Int) (hix : t.putIndex atoms < t.slots.length) :
    (t.setHead v atoms).headOf atoms = v := by
  unfold Flt.headOf
  have hpi : (t.setHead v atoms).putIndex atoms = t.putIndex atoms :=
    putIndex_congr _ _ (setHead_minSize t v atoms) atoms
  rw [hpi]
  have hslots : (t.setHead v atoms).slots =
      t.slots.set (t.putIndex atoms)
        { t.slots.getD (t.putIndex atoms) ⟨0, 0⟩ with head := v } := rfl
  rw [hslots, getD_set_self _ _ _ _ hix]

theorem setHead_heads (t : Flt) (v atoms : Int) (g : Int)
    (h : g ∈ (t.setHead v atoms).slots.map FltSlot.head) :
    g ∈ t.slots.map FltSlot.head ∨ g = v :=
  mem_map_head_set _ g t.slots (t.putIndex atoms) h

/-- `headOf` is either 0 (index out of range yields the default slot) or
one of the stored heads. -/
theorem headOf_mem (t : Flt) (atoms : Int) :
    t.headOf atoms = 0 ∨ t.headOf atoms ∈ t.slots.map FltSlot.head := by
  unfold Flt.headOf
  by_cases hix : t.putIndex atoms < t.slots.length
  · right
    rw [List.getD_eq_getElem?_getD, List.getElem?_eq_getElem hix]
    exact List.mem_map.mpr ⟨_, List.getElem_mem _, rfl⟩
  · left
    rw [List.getD_eq_getElem?_getD, List.getElem?_eq_none (by omega)]
    rfl

/-- `find` only zeroes a head: geometry preserved, heads only shrink. -/
theorem find_flt_spec (t : Flt) (rq : Int) :
    ((t.find rq).2).slots.map FltSlot.minSize = t.slots.map FltSlot.minSize ∧
    (∀ g, g ∈ ((t.find rq).2).slots.map FltSlot.head →
      g ∈ t.slots.map FltSlot.head ∨ g = 0) := by
  simp only [Flt.find]
  cases hfi : (t.slots.drop (if rq ≥ maxFLTRq then t.slots.length - 1 else fltGetIx t.slots rq)).findIdx?
      (fun s => s.head != 0) with
  | none => exact ⟨rfl, fun g hg => .inl hg⟩
  | some j =>
    constructor
    · exact map_minSize_set t.slots _ 0
    · intro g hg
      exact mem_map_head_set _ g t.slots _ hg

/-! ## Frame lemmas for the file operations -/

/-- Total byte length of a multi-part write. -/
def partsLen : List (List Nat) → Nat
  | [] => 0
  | p :: rest => p.length + partsLen rest

theorem writeSeq_frame :
    ∀ (parts : List (List Nat)) (f : GFiler) (off : Int),
      off + partsLen parts ≤ f.size →
      (writeSeq f off parts).size = f.size ∧
      (∀ o : Int, o < off ∨ off + partsLen parts ≤ o →
        (writeSeq f off parts).data o = f.data o)
  | [], f, off, _ => ⟨rfl, fun _ _ => rfl⟩
  | p :: rest, f, off, hfit => by
    unfold writeSeq
    have hfit1 : off + p.length ≤ f.size := by
      unfold partsLen at hfit
      have : 0 ≤ partsLen rest := Nat.cast_nonneg _
      omega
    have hsz1 : (f.writeAtF p off).size = f.size := writeAtF_size f p off hfit1
    have hrec := writeSeq_frame rest (f.writeAtF p off) (off + p.length)
      (by rw [hsz1]; unfold partsLen at hfit; push_cast at hfit ⊢; omega)
    refine ⟨by rw [hrec.1, hsz1], ?_⟩
    intro o ho
    rw [hrec.2 o (by unfold partsLen at ho; push_cast at ho ⊢; omega)]
    exact writeAtF_data_outside f p off o (by unfold partsLen at ho; push_cast at ho ⊢; omega)

/-- `nfo` depends only on the size and the 22 bytes at the block start. -/
theorem nfo_congr (a1 a2 : Allocator) (h : Int)
    (hsz : a1.f.size = a2.f.size)
    (hag : ∀ o : Int, h2off h ≤ o → o < h2off h + 22 → a1.f.data o = a2.f.data o) :
    a1.nfo h = a2.nfo h := by
  simp only [Allocator.nfo]
  rw [hsz]
  by_cases hcase : h2off h + 22 ≥ a2.f.size
  · have hread : a1.f.readF (a2.f.size - h2off h).toNat (h2off h) =
        a2.f.readF (a2.f.size - h2off h).toNat (h2off h) :=
      readF_congr _ _ _ _ hsz (fun o h1 h2 => hag o h1 (by omega))
    simp only [if_pos hcase, hread]
  · have hread : a1.f.readF (22 : Int).toNat (h2off h) =
        a2.f.readF (22 : Int).toNat (h2off h) :=
      readF_congr _ _ _ _ hsz (fun o h1 h2 => hag o h1 (by omega))
    simp only [if_neg hcase, hread]

/-- Frame and success facts for `Allocator.prev`: on success it only
changes bytes in `[h2off g + 1, h2off g + 15)` and leaves size and FLT
untouched. -/
theorem prev_frame (a : Allocator) (g v : Int) (hb : h2off g + 22 ≤ a.f.size)
    (a1 : Allocator) (hok : a.prev g v = .ok a1) :
    a1.flt = a.flt ∧ a1.compress = a.compress ∧ a1.f.size = a.f.size ∧
    ∀ o : Int, o < h2off g + 1 ∨ h2off g + 15 ≤ o → a1.f.data o = a.f.data o := by
  unfold Allocator.prev at hok
  rw [show a.f.readF 1 (h2off g) = .ok [a.f.data (h2off g)] by
    unfold GFiler.readF
    rw [if_pos (by push_cast; omega)]
    simp [show List.range 1 = [0] from rfl]] at hok
  simp only [bind, Except.bind] at hok
  split at hok
  · cases hok
    refine ⟨rfl, rfl, writeAtF_size _ _ _ (by rw [h2b_length]; push_cast; omega), ?_⟩
    intro o ho
    exact writeAtF_data_outside _ _ _ _ (by rw [h2b_length]; push_cast; omega)
  · split at hok
    · cases hok
      refine ⟨rfl, rfl, writeAtF_size _ _ _ (by rw [h2b_length]; push_cast; omega), ?_⟩
      intro o ho
      exact writeAtF_data_outside _ _ _ _ (by rw [h2b_length]; push_cast; omega)
    · cases hok

/-- Frame and success facts for `Allocator.next`: on success it only
changes bytes in `[h2off g + 8, h2off g + 22)`. -/
theorem next_frame (a : Allocator) (g v : Int) (hb : h2off g + 22 ≤ a.f.size)
    (a1 : Allocator) (hok : a.next g v = .ok a1) :
    a1.flt = a.flt ∧ a1.compress = a.compress ∧ a1.f.size = a.f.size ∧
    ∀ o : Int, o < h2off g + 8 ∨ h2off g + 22 ≤ o → a1.f.data o = a.f.data o := by
  unfold Allocator.next at hok
  rw [show a.f.readF 1 (h2off g) = .ok [a.f.data (h2off g)] by
    unfold GFiler.readF
    rw [if_pos (by push_cast; omega)]
    simp [show List.range 1 = [0] from rfl]] at hok
  simp only [bind, Except.bind] at hok
  split at hok
  · cases hok
    refine ⟨rfl, rfl, writeAtF_size _ _ _ (by rw [h2b_length]; push_cast; omega), ?_⟩
    intro o ho
    exact writeAtF_data_outside _ _ _ _ (by rw [h2b_length]; push_cast; omega)
  · split at hok
    · cases hok
      refine ⟨rfl, rfl, writeAtF_size _ _ _ (by rw [h2b_length]; push_cast; omega), ?_⟩
      intro o ho
      exact writeAtF_data_outside _ _ _ _ (by rw [h2b_length]; push_cast; omega)
    · cases hok

/-- Frame facts for `Allocator.unlink`: on success the file changes only
inside the 22-byte link headers of `p` and `n`, size and bucket geometry
are preserved, and the new bucket heads are old heads, `0` or `n`. -/
theorem unlink_frame (a : Allocator) (h atoms p n : Int)
    (hp : p = 0 ∨ h2off p + 22 ≤ a.f.size)
    (hn : n = 0 ∨ h2off n + 22 ≤ a.f.size)
    (a1 : Allocator) (hok : a.unlink h atoms p n = .ok a1) :
    a1.compress = a.compress ∧ a1.f.size = a.f.size ∧
    (∀ o : Int, (p = 0 ∨ o < h2off p ∨ h2off p + 22 ≤ o) →
                (n = 0 ∨ o < h2off n ∨ h2off n + 22 ≤ o) → a1.f.data o = a.f.data o) ∧
    a1.flt.slots.map FltSlot.minSize = a.flt.slots.map FltSlot.minSize ∧
    (∀ g, g ∈ a1.flt.slots.map FltSlot.head →
      g ∈ a.flt.slots.map FltSlot.head ∨ g = 0 ∨ g = n) := by
  unfold Allocator.unlink at hok
  split at hok
  · rename_i hpn
    cases hok
    refine ⟨rfl, rfl, fun o _ _ => rfl, setHead_minSize _ _ _, ?_⟩
    intro g hg
    rcases setHead_heads _ _ _ _ hg with h' | h'
    · exact .inl h'
    · exact .inr (.inl h')
  · split at hok
    · rename_i hpn
      simp only [bind, Except.bind] at hok
      cases hprev : a.prev n 0 with
      | error e => rw [hprev] at hok; cases hok
      | ok ap =>
        rw [hprev] at hok
        cases hok
        obtain ⟨hf1, hc1, hs1, hd1⟩ := prev_frame a n 0 (by omega) ap hprev
        refine ⟨hc1, hs1, ?_, ?_, ?_⟩
        · intro o _ hno
          exact hd1 o (by omega)
        · rw [setHead_minSize, hf1]
        · intro g hg
          rcases setHead_heads _ _ _ _ hg with h' | h'
          · rw [hf1] at h'
            exact .inl h'
          · exact .inr (.inr h')
    · split at hok
      · rename_i hpn
        obtain ⟨hf1, hc1, hs1, hd1⟩ := next_frame a p 0 (by omega) a1 hok
        refine ⟨hc1, hs1, ?_, by rw [hf1], ?_⟩
        · intro o hpo _
          exact hd1 o (by omega)
        · intro g hg
          rw [hf1] at hg
          exact .inl hg
      · rename_i hpn
        simp only [bind, Except.bind] at hok
        cases hnext : a.next p n with
        | error e => rw [hnext] at hok; cases hok
        | ok ap =>
          rw [hnext] at hok
          obtain ⟨hf1, hc1, hs1, hd1⟩ := next_frame a p n (by omega) ap hnext
          obtain ⟨hf2, hc2, hs2, hd2⟩ := prev_frame ap n p (by rw [hs1]; omega) a1 hok
          refine ⟨by rw [hc2, hc1], by rw [hs2, hs1], ?_, by rw [hf2, hf1], ?_⟩
          · intro o hpo hno
            rw [hd2 o (by omega), hd1 o (by omega)]
          · intro g hg
            rw [hf2, hf1] at hg
            exact .inl hg

/-! ## Decoding a freshly written free block -/

theorem b2h_congr_getD (l1 l2 : List Nat) (h7 : 7 ≤ l1.length) (h7' : 7 ≤ l2.length)
    (hag : ∀ j : Nat, j < 7 → l1.getD j 0 = l2.getD j 0) : b2h l1 = b2h l2 := by
  rw [b2h_getD _ h7, b2h_getD _ h7']
  rw [hag 0 (by omega), hag 1 (by omega), hag 2 (by omega), hag 3 (by omega),
    hag 4 (by omega), hag 5 (by omega), hag 6 (by omega)]

theorem b2h_append_left (l rest : List Nat) (h7 : l.length = 7) : b2h (l ++ rest) = b2h l := by
  unfold b2h
  rw [List.take_append_of_le_length (by omega)]

/-- The image `makeFree` writes for a single-atom free block with
`prev = 0`. -/
def freeShortImg (nX : Int) : List Nat :=
  [tagFreeShort] ++ h2b 0 ++ h2b nX ++ [tagFreeShort]

/-- The head image `makeFree` writes for a multi-atom free block with
`prev = 0`. -/
def freeLongImg (atoms nX : Int) : List Nat :=
  [tagFreeLong] ++ h2b atoms ++ h2b 0 ++ h2b nX

/-- `nfo` on a single-atom free block image: tag `0xFE`, one atom,
`prev = 0`, `next = nX`. -/
theorem nfo_decode_free_short (a : Allocator) (h nX : Int)
    (hnX0 : 0 ≤ nX) (hnX1 : nX ≤ maxHandle)
    (hsz : h2off h + 16 ≤ a.f.size)
    (hag : ∀ k : Nat, k < 15 → a.f.data (h2off h + k) = (freeShortImg nX).getD k 0) :
    a.nfo h = .ok (tagFreeShort, 1, 0, nX) := by
  simp only [Allocator.nfo]
  have hbound : (if h2off h + 22 ≥ a.f.size then a.f.size - h2off h else 22) ≥ 15 ∧
      (if h2off h + 22 ≥ a.f.size then a.f.size - h2off h else 22) ≤ 22 ∧
      h2off h + (if h2off h + 22 ≥ a.f.size then a.f.size - h2off h else 22) ≤ a.f.size := by
    split <;> omega
  set rq : Int := if h2off h + 22 ≥ a.f.size then a.f.size - h2off h else 22 with hrqdef
  rw [if_neg (by omega)]
  have hread : a.f.readF rq.toNat (h2off h) =
      .ok ((List.range rq.toNat).map (fun i : Nat => a.f.data (h2off h + i))) := by
    unfold GFiler.readF
    rw [if_pos (by push_cast; omega)]
  rw [hread]
  simp only [bind, Except.bind]
  have hbuf : ∀ k : Nat, k < 15 →
      ((List.range rq.toNat).map (fun i : Nat => a.f.data (h2off h + i))).getD k 0 =
        (freeShortImg nX).getD k 0 := by
    intro k hk
    rw [getD_range_map _ _ _ (by omega), hag k hk]
  have hlen : ((List.range rq.toNat).map (fun i : Nat => a.f.data (h2off h + i))).length =
      rq.toNat := by simp
  have htag : ((List.range rq.toNat).map (fun i : Nat => a.f.data (h2off h + i))).getD 0 0 =
      tagFreeShort := by rw [hbuf 0 (by omega)]; rfl
  rw [htag]
  rw [if_neg (by unfold tagFreeShort tagUsedLong; omega)]
  rw [if_neg (by unfold tagFreeShort tagFreeLong; omega)]
  rw [if_neg (by unfold tagFreeShort tagUsedRelocated; omega)]
  rw [if_pos rfl]
  have hdp : ∀ m j : Nat, m + j < 15 →
      (((List.range rq.toNat).map (fun i : Nat => a.f.data (h2off h + i))).drop m).getD j 0 =
        ((freeShortImg nX).drop m).getD j 0 := by
    intro m j hmj
    rw [getD_drop, getD_drop, hbuf (m + j) hmj]
  have hb1 : b2h (((List.range rq.toNat).map (fun i : Nat => a.f.data (h2off h + i))).drop 1) =
      (0 : Int) := by
    rw [b2h_congr_getD _ ((freeShortImg nX).drop 1) (by simp [hlen]; omega)
      (by simp [freeShortImg, h2b_length]) (fun j hj => hdp 1 j (by omega))]
    rw [show (freeShortImg nX).drop 1 = h2b 0 ++ (h2b nX ++ [tagFreeShort]) by
      simp [freeShortImg]]
    rw [b2h_append_left _ _ (h2b_length 0), b2h_h2b 0 (by omega) (by unfold maxHandle; omega)]
  have hb8 : b2h (((List.range rq.toNat).map (fun i : Nat => a.f.data (h2off h + i))).drop 8) =
      nX := by
    rw [b2h_congr_getD _ ((freeShortImg nX).drop 8) (by simp [hlen]; omega)
      (by simp [freeShortImg, h2b_length]) (fun j hj => hdp 8 j (by omega))]
    rw [show (freeShortImg nX).drop 8 = h2b nX ++ [tagFreeShort] by
      simp [freeShortImg, h2b]]
    rw [b2h_append_left _ _ (h2b_length nX), b2h_h2b nX hnX0 hnX1]
  rw [hb1, hb8]

/-- `nfo` on a multi-atom free block image: tag `0xFF`, `atoms` atoms,
`prev = 0`, `next = nX`. -/
theorem nfo_decode_free_long (a : Allocator) (h atoms nX : Int)
    (hat : 2 ≤ atoms) (hat1 : atoms ≤ maxHandle)
    (hnX0 : 0 ≤ nX) (hnX1 : nX ≤ maxHandle)
    (hsz : h2off h + 16 * atoms ≤ a.f.size)
    (hag : ∀ k : Nat, k < 22 → a.f.data (h2off h + k) = (freeLongImg atoms nX).getD k 0) :
    a.nfo h = .ok (tagFreeLong, atoms, 0, nX) := by
  simp only [Allocator.nfo]
  have hbound : ¬(h2off h + 22 ≥ a.f.size) := by omega
  rw [if_neg hbound]
  rw [if_neg (by omega : ¬((22 : Int) < 15))]
  have hread : a.f.readF (22 : Int).toNat (h2off h) =
      .ok ((List.range 22).map (fun i : Nat => a.f.data (h2off h + i))) := by
    unfold GFiler.readF
    rw [if_pos (by push_cast; omega)]
    rfl
  rw [hread]
  simp only [bind, Except.bind]
  have hbuf : ∀ k : Nat, k < 22 →
      ((List.range 22).map (fun i : Nat => a.f.data (h2off h + i))).getD k 0 =
        (freeLongImg atoms nX).getD k 0 := by
    intro k hk
    rw [getD_range_map _ _ _ (by omega), hag k hk]
  have hlen : ((List.range 22).map (fun i : Nat => a.f.data (h2off h + i))).length = 22 := by
    simp
  have htag : ((List.range 22).map (fun i : Nat => a.f.data (h2off h + i))).getD 0 0 =
      tagFreeLong := by rw [hbuf 0 (by omega)]; rfl
  rw [htag]
  rw [if_neg (by unfold tagFreeLong tagUsedLong; omega)]
  rw [if_pos rfl]
  rw [if_neg (by omega : ¬((22 : Int) < 22))]
  have hdp : ∀ m j : Nat, m + j < 22 →
      (((List.range 22).map (fun i : Nat => a.f.data (h2off h + i))).drop m).getD j 0 =
        ((freeLongImg atoms nX).drop m).getD j 0 := by
    intro m j hmj
    rw [getD_drop, getD_drop, hbuf (m + j) hmj]
  have hb1 : b2h (((List.range 22).map (fun i : Nat => a.f.data (h2off h + i))).drop 1) =
      atoms := by
    rw [b2h_congr_getD _ ((freeLongImg atoms nX).drop 1) (by simp [hlen])
      (by simp [freeLongImg, h2b_length]) (fun j hj => hdp 1 j (by omega))]
    rw [show (freeLongImg atoms nX).drop 1 = h2b atoms ++ (h2b 0 ++ h2b nX) by
      simp [freeLongImg]]
    rw [b2h_append_left _ _ (h2b_length atoms), b2h_h2b atoms (by omega) hat1]
  have hb8 : b2h (((List.range 22).map (fun i : Nat => a.f.data (h2off h + i))).drop 8) =
      (0 : Int) := by
    rw [b2h_congr_getD _ ((freeLongImg atoms nX).drop 8) (by simp [hlen])
      (by simp [freeLongImg, h2b_length]) (fun j hj => hdp 8 j (by omega))]
    rw [show (freeLongImg atoms nX).drop 8 = h2b 0 ++ h2b nX by
      simp [freeLongImg, h2b]]
    rw [b2h_append_left _ _ (h2b_length 0), b2h_h2b 0 (by omega) (by unfold maxHandle; omega)]
  have hb15 : b2h (((List.range 22).map (fun i : Nat => a.f.data (h2off h + i))).drop 15) =
      nX := by
    rw [b2h_congr_getD _ ((freeLongImg atoms nX).drop 15) (by simp [hlen])
      (by simp [freeLongImg, h2b_length]) (fun j hj => hdp 15 j (by omega))]
    rw [show (freeLongImg atoms nX).drop 15 = h2b nX by
      simp [freeLongImg, h2b]]
    rw [b2h_h2b nX hnX0 hnX1]
  rw [hb1, hb8, hb15]

theorem h2off_add (h atoms : Int) : h2off (h + atoms) = h2off h + 16 * atoms := by
  unfold h2off
  ring

/-- What `makeFree h atoms 0 nH` produces: the FLT and size are untouched,
`nfo` decodes the new free block (tag by size, `prev = 0`, `next = nH`),
and bytes outside the block and outside `nH`'s link header are
untouched. -/
theorem makeFree_spec (a : Allocator) (h atoms nH : Int)
    (hat : 1 ≤ atoms) (hat1 : atoms ≤ maxHandle)
    (hnH0 : 0 ≤ nH) (hnH1 : nH ≤ maxHandle)
    (hfit : h2off (h + atoms) ≤ a.f.size)
    (hsep : nH = 0 ∨ (h2off nH + 22 ≤ a.f.size ∧
      (h2off nH + 22 ≤ h2off h ∨ h2off (h + atoms) ≤ h2off nH)))
    (a1 : Allocator) (hok : a.makeFree h atoms 0 nH = .ok a1) :
    a1.flt = a.flt ∧ a1.compress = a.compress ∧ a1.f.size = a.f.size ∧
    a1.nfo h = .ok ((if atoms = 1 then tagFreeShort else tagFreeLong), atoms, 0, nH) ∧
    (∀ o : Int, (o < h2off h ∨ h2off (h + atoms) ≤ o) →
      (nH = 0 ∨ o < h2off nH ∨ h2off nH + 22 ≤ o) → a1.f.data o = a.f.data o) := by
  have harith := h2off_add h atoms
  unfold Allocator.makeFree at hok
  rw [if_neg (show ¬(0 : Int) ≠ 0 by omega)] at hok
  simp only [bind, Except.bind] at hok
  by_cases hato : atoms = 1
  · rw [if_pos hato] at hok
    set aw : Allocator :=
      { a with f := a.f.writeAtF ([tagFreeShort] ++ h2b 0 ++ h2b nH ++ [tagFreeShort]) (h2off h) }
      with hawdef
    have hilen : ([tagFreeShort] ++ h2b 0 ++ h2b nH ++ [tagFreeShort]).length = 16 := by
      simp [h2b_length]
    have hwsz : aw.f.size = a.f.size := by
      rw [hawdef]
      exact writeAtF_size _ _ _ (by rw [hilen]; push_cast; omega)
    have hwdata_in : ∀ k : Nat, k < 16 →
        aw.f.data (h2off h + k) = (freeShortImg nH).getD k 0 := by
      intro k hk
      rw [hawdef]
      show (a.f.writeAtF _ _).data _ = _
      rw [writeAtF_data_inside _ _ _ _ (by omega) (by rw [hilen]; push_cast; omega)]
      congr 1
      omega
    have hwdata_out : ∀ o : Int, (o < h2off h ∨ h2off (h + atoms) ≤ o) →
        aw.f.data o = a.f.data o := by
      intro o ho
      rw [hawdef]
      exact writeAtF_data_outside _ _ _ _ (by rw [hilen]; push_cast; omega)
    by_cases hnH : nH ≠ 0
    · rw [if_pos hnH] at hok
      obtain ⟨hf1, hc1, hs1, hd1⟩ := prev_frame aw nH h (by rw [hwsz]; omega) a1 hok
      have hsep' := hsep.resolve_left hnH
      refine ⟨hf1, hc1, by rw [hs1, hwsz], ?_, ?_⟩
      · rw [if_pos hato]
        subst hato
        apply nfo_decode_free_short a1 h nH hnH0 hnH1 (by rw [hs1, hwsz]; omega)
        intro k hk
        rw [hd1 (h2off h + k) (by omega), hwdata_in k (by omega)]
      · intro o ho hno
        rw [hd1 o (by omega), hwdata_out o ho]
    · rw [if_neg hnH] at hok
      injection hok with haw
      subst haw
      refine ⟨rfl, rfl, hwsz, ?_, ?_⟩
      · rw [if_pos hato]
        subst hato
        apply nfo_decode_free_short aw h nH hnH0 hnH1 (by rw [hwsz]; omega)
        intro k hk
        exact hwdata_in k (by omega)
      · intro o ho _
        exact hwdata_out o ho
  · rw [if_neg hato] at hok
    have hat2 : 2 ≤ atoms := by omega
    set f1 : GFiler := a.f.writeAtF ([tagFreeLong] ++ h2b atoms ++ h2b 0 ++ h2b nH) (h2off h)
      with hf1def
    set aw : Allocator :=
      { a with f := f1.writeAtF (h2b atoms ++ [tagFreeLong]) (h2off (h + atoms) - 8) }
      with hawdef
    have hilen : ([tagFreeLong] ++ h2b atoms ++ h2b 0 ++ h2b nH).length = 22 := by
      simp [h2b_length]
    have htlen : (h2b atoms ++ [tagFreeLong]).length = 8 := by simp [h2b_length]
    have hs1 : f1.size = a.f.size := by
      rw [hf1def]
      exact writeAtF_size _ _ _ (by rw [hilen]; push_cast; omega)
    have hwsz : aw.f.size = a.f.size := by
      rw [hawdef]
      show (f1.writeAtF _ _).size = _
      rw [writeAtF_size _ _ _ (by rw [htlen, hs1]; push_cast; omega), hs1]
    have hwdata_in : ∀ k : Nat, k < 22 →
        aw.f.data (h2off h + k) = (freeLongImg atoms nH).getD k 0 := by
      intro k hk
      rw [hawdef]
      show (f1.writeAtF _ _).data _ = _
      rw [writeAtF_data_outside _ _ _ _ (by rw [htlen]; push_cast; omega)]
      rw [hf1def]
      rw [writeAtF_data_inside _ _ _ _ (by omega) (by rw [hilen]; push_cast; omega)]
      congr 1
      omega
    have hwdata_out : ∀ o : Int, (o < h2off h ∨ h2off (h + atoms) ≤ o) →
        aw.f.data o = a.f.data o := by
      intro o ho
      rw [hawdef]
      show (f1.writeAtF _ _).data _ = _
      rw [writeAtF_data_outside _ _ _ _ (by rw [htlen]; push_cast; omega)]
      rw [hf1def]
      exact writeAtF_data_outside _ _ _ _ (by rw [hilen]; push_cast; omega)
    by_cases hnH : nH ≠ 0
    · rw [if_pos hnH] at hok
      obtain ⟨hfl1, hc1, hsz1, hd1⟩ := prev_frame aw nH h (by rw [hwsz]; omega) a1 hok
      have hsep' := hsep.resolve_left hnH
      refine ⟨hfl1, hc1, by rw [hsz1, hwsz], ?_, ?_⟩
      · rw [if_neg hato]
        apply nfo_decode_free_long a1 h atoms nH hat2 hat1 hnH0 hnH1 (by rw [hsz1, hwsz]; omega)
        intro k hk
        rw [hd1 (h2off h + k) (by omega), hwdata_in k (by omega)]
      · intro o ho hno
        rw [hd1 o (by omega), hwdata_out o ho]
    · rw [if_neg hnH] at hok
      injection hok with haw
      subst haw
      refine ⟨rfl, rfl, hwsz, ?_, ?_⟩
      · rw [if_neg hato]
        apply nfo_decode_free_long aw h atoms nH hat2 hat1 hnH0 hnH1 (by rw [hwsz]; omega)
        intro k hk
        exact hwdata_in k (by omega)
      · intro o ho _
        exact hwdata_out o ho

/-- `link h atoms` pushes `h` on the bucket's list: the block at `h`
decodes as free with `prev = 0` and `next` = the old bucket head, the
bucket head becomes `h`, no other head appears, and bytes outside the
block and the old head's link field are untouched. -/
theorem link_spec (a : Allocator) (h atoms : Int)
    (hat : 1 ≤ atoms) (hat1 : atoms ≤ maxHandle)
    (hnH0 : 0 ≤ a.flt.headOf atoms) (hnH1 : a.flt.headOf atoms ≤ maxHandle)
    (hfit : h2off (h + atoms) ≤ a.f.size)
    (hsep : a.flt.headOf atoms = 0 ∨ (h2off (a.flt.headOf atoms) + 22 ≤ a.f.size ∧
      (h2off (a.flt.headOf atoms) + 22 ≤ h2off h ∨
        h2off (h + atoms) ≤ h2off (a.flt.headOf atoms))))
    (hix : a.flt.putIndex atoms < a.flt.slots.length)
    (a1 : Allocator) (hok : a.link h atoms = .ok a1) :
    a1.compress = a.compress ∧ a1.f.size = a.f.size ∧
    a1.flt.headOf atoms = h ∧
    a1.nfo h = .ok ((if atoms = 1 then tagFreeShort else tagFreeLong), atoms, 0,
      a.flt.headOf atoms) ∧
    a1.flt.slots.map FltSlot.minSize = a.flt.slots.map FltSlot.minSize ∧
    (∀ g, g ∈ a1.flt.slots.map FltSlot.head → g ∈ a.flt.slots.map FltSlot.head ∨ g = h) ∧
    (∀ o : Int, (o < h2off h ∨ h2off (h + atoms) ≤ o) →
      (a.flt.headOf atoms = 0 ∨ o < h2off (a.flt.headOf atoms) ∨
        h2off (a.flt.headOf atoms) + 22 ≤ o) →
      a1.f.data o = a.f.data o) := by
  simp only [Allocator.link, bind, Except.bind] at hok
  split at hok
  · exact absurd hok (by simp)
  · rename_i aw hmk
    injection hok with haw
    subst haw
    obtain ⟨hfl, hc, hsz, hnfo, hdata⟩ :=
      makeFree_spec a h atoms (a.flt.headOf atoms) hat hat1 hnH0 hnH1 hfit hsep aw hmk
    refine ⟨hc, hsz, ?_, ?_, ?_, ?_, hdata⟩
    · show (aw.flt.setHead h atoms).headOf atoms = h
      rw [hfl]
      exact setHead_headOf a.flt h atoms hix
    · exact hnfo
    · show (aw.flt.setHead h atoms).slots.map FltSlot.minSize = _
      rw [setHead_minSize, hfl]
    · intro g hg
      have := setHead_heads aw.flt h atoms g hg
      rw [hfl] at this
      exact this

theorem n2atoms_pos (n : Nat) : 1 ≤ n2atoms n := by
  unfold n2atoms
  split <;> omega

/-- A bucket head `g` is benign for an operation on the block
`[h2off lo, h2off hi)`: either absent (0), or a well-formed handle whose
22-byte link window lies inside the file and outside the block. -/
abbrev headFits (a : Allocator) (lo hi g : Int) : Prop :=
  g = 0 ∨ (0 ≤ g ∧ g ≤ maxHandle ∧ h2off g + 22 ≤ a.f.size ∧
    (h2off g + 22 ≤ h2off lo ∨ h2off hi ≤ h2off g))

/-- C4: `alloc` behaviour on a found candidate, spec-modelled block
geometry.  With `rq = n2atoms (len b)` and the FLT lookup returning
`(h, t0)`: if `h = 0` the file is grown and the returned handle addresses
the current tail; otherwise, with the candidate decoding as
`(tag, s, prev, next)`, a non-free tag, a non-zero prev link or `s < rq`
are structural errors; on success the candidate handle is returned, it is
unlinked (no bucket head is `h` any more), and a strictly larger candidate
is split — the remainder of exactly `s - rq` atoms is re-linked at
`h + rq` and decodes as a free block of `s - rq` atoms. -/
theorem alloc_candidate_checks_and_split (a : Allocator) (b : List Nat) (c : allocatorBlock)
    (h : Int) (t0 : Flt) (tag : Nat) (s p nxt : Int)
    (hfind : a.flt.find (n2atoms b.length : Int) = (h, t0))
    (hnfo : h ≠ 0 → ({ a with flt := t0 } : Allocator).nfo h = .ok (tag, s, p, nxt))
    (hsmax : s ≤ maxHandle)
    (hfit : h ≠ 0 → h2off (h + s) ≤ a.f.size)
    (himg : (c.head.take c.headSize).length + b.length + n2padding b.length +
      (c.tail.take c.tailSize).length = 16 * n2atoms b.length)
    (hheads : ∀ g ∈ t0.slots.map FltSlot.head,
      headFits a (h + (n2atoms b.length : Int)) (h + s) g)
    (hnxtsep : headFits a (h + (n2atoms b.length : Int)) (h + s) nxt)
    (hix : a.flt.putIndex (s - (n2atoms b.length : Int)) < a.flt.slots.length) :
    (h = 0 → a.alloc b c = .ok (off2h a.f.size,
        Allocator.writeUsedBlock { a with flt := t0 } (off2h a.f.size) c b) ∧
      (a.f.size % 16 = 0 → h2off (off2h a.f.size) = a.f.size)) ∧
    (h ≠ 0 → ¬(tag = tagFreeShort ∨ tag = tagFreeLong) → a.alloc b c = .error .expFreeTag) ∧
    (h ≠ 0 → (tag = tagFreeShort ∨ tag = tagFreeLong) → p ≠ 0 →
      a.alloc b c = .error .errHead) ∧
    (h ≠ 0 → (tag = tagFreeShort ∨ tag = tagFreeLong) → p = 0 →
      s < (n2atoms b.length : Int) → a.alloc b c = .error .errSmall) ∧
    (∀ h1 a1, h ≠ 0 → (tag = tagFreeShort ∨ tag = tagFreeLong) → p = 0 →
      s = (n2atoms b.length : Int) → (∀ g ∈ t0.slots.map FltSlot.head, g ≠ h) → nxt ≠ h →
      a.alloc b c = .ok (h1, a1) →
      h1 = h ∧ ∀ g ∈ a1.flt.slots.map FltSlot.head, g ≠ h) ∧
    (∀ h1 a1, h ≠ 0 → (tag = tagFreeShort ∨ tag = tagFreeLong) → p = 0 →
      (n2atoms b.length : Int) < s → (∀ g ∈ t0.slots.map FltSlot.head, g ≠ h) → nxt ≠ h →
      a.alloc b c = .ok (h1, a1) →
      h1 = h ∧ (∀ g ∈ a1.flt.slots.map FltSlot.head, g ≠ h) ∧
      a1.flt.headOf (s - (n2atoms b.length : Int)) = h + (n2atoms b.length : Int) ∧
      (∃ nx, a1.nfo (h + (n2atoms b.length : Int)) =
        .ok ((if s - (n2atoms b.length : Int) = 1 then tagFreeShort else tagFreeLong),
          s - (n2atoms b.length : Int), 0, nx))) := by
  have hrq1 : (1 : Int) ≤ (n2atoms b.length : Int) := by exact_mod_cast n2atoms_pos b.length
  have hmax0 : (0 : Int) ≤ maxHandle := by unfold maxHandle; omega
  refine ⟨?_, ?_, ?_, ?_, ?_, ?_⟩
  · intro h0
    constructor
    · simp only [Allocator.alloc, hfind]
      rw [if_pos h0]
    · intro h16
      unfold off2h h2off
      omega
  · intro hne htag
    have hnfo' := hnfo hne
    have htag' : tag ≠ tagFreeShort ∧ tag ≠ tagFreeLong := by push_neg at htag; exact htag
    simp only [Allocator.alloc, hfind]
    rw [if_neg hne, hnfo']
    simp only [bind, Except.bind]
    rw [if_pos htag']
  · intro hne htag hp
    have hnfo' := hnfo hne
    have hc1 : ¬(tag ≠ tagFreeShort ∧ tag ≠ tagFreeLong) := by
      rcases htag with h | h <;> simp [h]
    simp only [Allocator.alloc, hfind]
    rw [if_neg hne, hnfo']
    simp only [bind, Except.bind]
    rw [if_neg hc1, if_pos hp]
  · intro hne htag hp0 hlt
    have hnfo' := hnfo hne
    have hc1 : ¬(tag ≠ tagFreeShort ∧ tag ≠ tagFreeLong) := by
      rcases htag with h | h <;> simp [h]
    simp only [Allocator.alloc, hfind]
    rw [if_neg hne, hnfo']
    simp only [bind, Except.bind]
    rw [if_neg hc1, if_neg (show ¬p ≠ 0 from fun hh => hh hp0), if_pos hlt]
  · intro h1 a1 hne htag hp0 hseq hne2 hnxtne hok
    have hnfo' := hnfo hne
    have hc1 : ¬(tag ≠ tagFreeShort ∧ tag ≠ tagFreeLong) := by
      rcases htag with h | h <;> simp [h]
    subst hp0
    simp only [Allocator.alloc, hfind] at hok
    rw [if_neg hne, hnfo'] at hok
    simp only [bind, Except.bind] at hok
    rw [if_neg hc1, if_neg (show ¬(0 : Int) ≠ 0 by omega),
      if_neg (show ¬s < (n2atoms b.length : Int) by omega)] at hok
    cases hunl : ({ a with flt := t0 } : Allocator).unlink h s 0 nxt with
    | error e =>
      rw [hunl] at hok
      simp only [Except.bind] at hok
      exact absurd hok (by simp)
    | ok aU =>
      rw [hunl] at hok
      simp only [Except.bind] at hok
      rw [if_neg (show ¬s > (n2atoms b.length : Int) by omega)] at hok
      injection hok with hpair
      rw [Prod.mk.injEq] at hpair
      obtain ⟨hh1, ha1⟩ := hpair
      obtain ⟨hcU, hszU, hdataU, hminU, hheadsU⟩ :=
        unlink_frame { a with flt := t0 } h s 0 nxt (.inl rfl)
          (by rcases hnxtsep with h0 | hb
              · exact .inl h0
              · exact .inr hb.2.2.1)
          aU hunl
      refine ⟨hh1.symm, ?_⟩
      intro g hg
      rw [← ha1] at hg
      have hg' : g ∈ aU.flt.slots.map FltSlot.head := hg
      rcases hheadsU g hg' with hm | h0 | hn
      · exact hne2 g hm
      · omega
      · omega
  · intro h1 a1 hne htag hp0 hlt hne2 hnxtne hok
    have hnfo' := hnfo hne
    have hc1 : ¬(tag ≠ tagFreeShort ∧ tag ≠ tagFreeLong) := by
      rcases htag with h | h <;> simp [h]
    subst hp0
    have harq := h2off_add h (n2atoms b.length : Int)
    have hars := h2off_add h s
    simp only [Allocator.alloc, hfind] at hok
    rw [if_neg hne, hnfo'] at hok
    simp only [bind, Except.bind] at hok
    rw [if_neg hc1, if_neg (show ¬(0 : Int) ≠ 0 by omega),
      if_neg (show ¬s < (n2atoms b.length : Int) by omega)] at hok
    cases hunl : ({ a with flt := t0 } : Allocator).unlink h s 0 nxt with
    | error e =>
      rw [hunl] at hok
      simp only [Except.bind] at hok
      exact absurd hok (by simp)
    | ok aU =>
      rw [hunl] at hok
      simp only [Except.bind] at hok
      rw [if_pos (show s > (n2atoms b.length : Int) from hlt)] at hok
      obtain ⟨hcU, hszU, hdataU, hminU, hheadsU⟩ :=
        unlink_frame { a with flt := t0 } h s 0 nxt (.inl rfl)
          (by rcases hnxtsep with h0 | hb
              · exact .inl h0
              · exact .inr hb.2.2.1)
          aU hunl
      have hszU2 : aU.f.size = a.f.size := hszU
      have hmin_t0 : t0.slots.map FltSlot.minSize = a.flt.slots.map FltSlot.minSize := by
        have hh := (find_flt_spec a.flt (n2atoms b.length : Int)).1
        rw [hfind] at hh
        exact hh
      have hminU' : aU.flt.slots.map FltSlot.minSize = a.flt.slots.map FltSlot.minSize :=
        hminU.trans hmin_t0
      have hcand : headFits a (h + (n2atoms b.length : Int)) (h + s)
          (aU.flt.headOf (s - (n2atoms b.length : Int))) := by
        rcases headOf_mem aU.flt (s - (n2atoms b.length : Int)) with h0 | hmem
        · exact .inl h0
        · rcases hheadsU _ hmem with hm | h0 | hn
          · exact hheads _ hm
          · exact .inl h0
          · exact hn ▸ hnxtsep
      have hsum : h + (n2atoms b.length : Int) + (s - (n2atoms b.length : Int)) = h + s := by
        ring
      cases hlink : aU.link (h + (n2atoms b.length : Int)) (s - (n2atoms b.length : Int)) with
      | error e =>
        rw [hlink] at hok
        simp only [Except.bind] at hok
        exact absurd hok (by simp)
      | ok aL =>
        rw [hlink] at hok
        simp only [Except.bind] at hok
        injection hok with hpair
        rw [Prod.mk.injEq] at hpair
        obtain ⟨hh1, ha1⟩ := hpair
        obtain ⟨hcL, hszL, hheadL, hnfoL, hminL, hheadsL, hdataL⟩ :=
          link_spec aU (h + (n2atoms b.length : Int)) (s - (n2atoms b.length : Int))
            (by omega) (by omega)
            (by rcases hcand with h0 | hb
                · omega
                · exact hb.1)
            (by rcases hcand with h0 | hb
                · omega
                · exact hb.2.1)
            (by rw [hsum, hszU]; exact hfit hne)
            (by rw [hsum, hszU]
                rcases hcand with h0 | hb
                · exact .inl h0
                · exact .inr ⟨hb.2.2.1, hb.2.2.2⟩)
            (by rw [putIndex_congr aU.flt a.flt hminU',
                  show aU.flt.slots.length = a.flt.slots.length from by
                    have hl := congrArg List.length hminU'
                    simpa using hl]
                exact hix)
            aL hlink
        have hplen : (partsLen [c.head.take c.headSize, b,
            List.replicate (n2padding b.length) 0, c.tail.take c.tailSize] : Int) =
            16 * (n2atoms b.length : Int) := by
          simp only [partsLen, List.length_replicate]
          push_cast
          omega
        obtain ⟨hwsz, hwdata⟩ :=
          writeSeq_frame [c.head.take c.headSize, b,
            List.replicate (n2padding b.length) 0, c.tail.take c.tailSize]
            aL.f (h2off h)
            (by rw [hplen, hszL, hszU2]
                have := hfit hne
                omega)
        refine ⟨hh1.symm, ?_, ?_, ?_⟩
        · intro g hg
          rw [← ha1] at hg
          have hg' : g ∈ aL.flt.slots.map FltSlot.head := hg
          rcases hheadsL g hg' with hm | hnew
          · rcases hheadsU g hm with hm2 | h0 | hn
            · exact hne2 g hm2
            · omega
            · omega
          · omega
        · rw [← ha1]
          show aL.flt.headOf (s - (n2atoms b.length : Int)) = _
          exact hheadL
        · refine ⟨aU.flt.headOf (s - (n2atoms b.length : Int)), ?_⟩
          rw [← ha1]
          have hcongr : (aL.writeUsedBlock h c b).nfo (h + (n2atoms b.length : Int)) =
              aL.nfo (h + (n2atoms b.length : Int)) := by
            apply nfo_congr
            · exact hwsz
            · intro o h1o h2o
              exact hwdata o (.inr (by rw [hplen]; omega))
          rw [hcongr]
          exact hnfoL

/-- The 14 powers-of-two FLT buckets of `newCannedFLT` (flt.go), all heads
zero. -/
def po2slots : List FltSlot :=
  [⟨1, 0⟩, ⟨2, 0⟩, ⟨4, 0⟩, ⟨8, 0⟩, ⟨16, 0⟩, ⟨32, 0⟩, ⟨64, 0⟩, ⟨128, 0⟩,
   ⟨256, 0⟩, ⟨512, 0⟩, ⟨1024, 0⟩, ⟨2048, 0⟩, ⟨4096, 0⟩, ⟨4112, 0⟩]

/-- Same buckets with a 3-atom free block at handle 2 in the `2+` bucket. -/
def slotsSplit : List FltSlot :=
  [⟨1, 0⟩, ⟨2, 2⟩, ⟨4, 0⟩, ⟨8, 0⟩, ⟨16, 0⟩, ⟨32, 0⟩, ⟨64, 0⟩, ⟨128, 0⟩,
   ⟨256, 0⟩, ⟨512, 0⟩, ⟨1024, 0⟩, ⟨2048, 0⟩, ⟨4096, 0⟩, ⟨4112, 0⟩]

/-- A 1-atom used short block (content length 1). -/
def usedBlk1 : List Nat := [1, 66] ++ List.replicate 13 0 ++ [0]

/-- A 3-atom free long block (no neighbours in its list). -/
def freeBlk2 : List Nat :=
  [tagFreeLong] ++ h2b 3 ++ h2b 0 ++ h2b 0 ++ List.replicate 18 0 ++ h2b 3 ++ [tagFreeLong]

/-- Allocator with a used block at handle 1 and a free 3-atom block at
handle 2, linked in the `2+` bucket. -/
def allocDemo : Allocator := ⟨fileOf (usedBlk1 ++ freeBlk2), ⟨slotsSplit⟩, false⟩

/-- The state after allocating a 20-byte (2-atom) request from
`allocDemo`: the candidate is split. -/
def postSplit : Allocator :=
  match allocDemo.alloc (List.replicate 20 7) ⟨1, [20], [0], 1⟩ with
  | .ok r => r.2
  | .error _ => allocDemo

/-- Buckets whose only non-zero head (handle 5, in the `1+` bucket) is
below the scan start for a 2-atom request, so `find` reports no
candidate. -/
def slotsGrow : List FltSlot :=
  [⟨1, 5⟩, ⟨2, 0⟩, ⟨4, 0⟩, ⟨8, 0⟩, ⟨16, 0⟩, ⟨32, 0⟩, ⟨64, 0⟩, ⟨128, 0⟩,
   ⟨256, 0⟩, ⟨512, 0⟩, ⟨1024, 0⟩, ⟨2048, 0⟩, ⟨4096, 0⟩, ⟨4112, 0⟩]

/-- A 96-byte (6-atom) file with no free block suiting a 2-atom request. -/
def allocGrow : Allocator := ⟨fileOf (List.replicate 96 0), ⟨slotsGrow⟩, false⟩

/-- A 1-atom free block with empty links. -/
def freeShort0 : List Nat := [tagFreeShort] ++ h2b 0 ++ h2b 0 ++ [tagFreeShort]

/-- Buckets with the `1+` bucket head at handle 2. -/
def slotsOne : List FltSlot :=
  [⟨1, 2⟩, ⟨2, 0⟩, ⟨4, 0⟩, ⟨8, 0⟩, ⟨16, 0⟩, ⟨32, 0⟩, ⟨64, 0⟩, ⟨128, 0⟩,
   ⟨256, 0⟩, ⟨512, 0⟩, ⟨1024, 0⟩, ⟨2048, 0⟩, ⟨4096, 0⟩, ⟨4112, 0⟩]

/-- A 1-atom free block at handle 2 serving a 1-atom (single-byte)
request exactly. -/
def exactDemo : Allocator := ⟨fileOf (usedBlk1 ++ freeShort0 ++ usedBlk1), ⟨slotsOne⟩, false⟩

/-- The state after allocating 1 byte from `exactDemo` (exact fit, no
split). -/
def postExact : Allocator :=
  match exactDemo.alloc [9] ⟨1, [1], [0], 1⟩ with
  | .ok r => r.2
  | .error _ => exactDemo

theorem alloc_candidate_checks_and_split_witness :
    (∀ g ∈ postSplit.flt.slots.map FltSlot.head, g ≠ 2) ∧
    2 ∉ postExact.flt.slots.map FltSlot.head ∧
    postSplit.flt.headOf 1 = 4 ∧
    allocGrow.alloc (List.replicate 20 7) ⟨1, [20], [0], 1⟩ =
      .ok (off2h allocGrow.f.size,
        Allocator.writeUsedBlock { allocGrow with flt := (⟨slotsGrow⟩ : Flt) }
          (off2h allocGrow.f.size) ⟨1, [20], [0], 1⟩ (List.replicate 20 7)) ∧
    h2off (off2h allocGrow.f.size) = allocGrow.f.size := by
  have hs := alloc_candidate_checks_and_split allocDemo (List.replicate 20 7) ⟨1, [20], [0], 1⟩
    2 ⟨po2slots⟩ tagFreeLong 3 0 0 rfl (fun _ => rfl) (by decide) (fun _ => by decide)
    (by decide) (by decide) (Or.inl rfl) (by decide)
  have hsplit := hs.2.2.2.2.2 2 postSplit (by decide) (Or.inr rfl) rfl (by decide)
    (by decide) (by decide) rfl
  have hg := alloc_candidate_checks_and_split allocGrow (List.replicate 20 7) ⟨1, [20], [0], 1⟩
    0 ⟨slotsGrow⟩ 0 0 0 0 rfl (fun h0 => absurd rfl h0) (by decide) (fun h0 => absurd rfl h0)
    (by decide) (by decide) (Or.inl rfl) (by decide)
  have hx := alloc_candidate_checks_and_split exactDemo [9] ⟨1, [1], [0], 1⟩
    2 ⟨po2slots⟩ tagFreeShort 1 0 0 rfl (fun _ => rfl) (by decide) (fun _ => by decide)
    (by decide) (by decide) (Or.inl rfl) (by decide)
  have hexact := hx.2.2.2.2.1 2 postExact (by decide) (Or.inl rfl) rfl (by decide)
    (by decide) (by decide) rfl
  have hgrow := hg.1 rfl
  exact ⟨hsplit.2.1, fun hm => hexact.2 2 hm rfl, hsplit.2.2.1, hgrow.1,
    hgrow.2 (by decide)⟩

theorem mem_map_head_idx :
    ∀ (l : List FltSlot) (g : Int), g ∈ l.map FltSlot.head →
      ∃ j, j < l.length ∧ (l.getD j ⟨0, 0⟩).head = g
  | [], g, hg => by simp at hg
  | a :: l, g, hg => by
    simp only [List.map_cons, List.mem_cons] at hg
    rcases hg with rfl | hg
    · exact ⟨0, by simp, rfl⟩
    · obtain ⟨j, hj, hjh⟩ := mem_map_head_idx l g hg
      exact ⟨j + 1, by simpa using hj, by simpa using hjh⟩

theorem getD_set_ne :
    ∀ (l : List FltSlot) (i j : Nat) (v : FltSlot), j ≠ i →
      (l.set i v).getD j ⟨0, 0⟩ = l.getD j ⟨0, 0⟩
  | [], _, _, _, _ => rfl
  | _ :: _, 0, 0, _, hne => absurd rfl hne
  | _ :: _, 0, _ + 1, _, _ => by simp [List.getD_cons_succ]
  | _ :: _, _ + 1, 0, _, _ => rfl
  | _ :: l, i + 1, j + 1, v, hne => by
    simp only [List.set_cons_succ, List.getD_cons_succ]
    exact getD_set_ne l i j v (by omega)

/-- `unlink h atoms p n` rewrites the FLT exactly: with `p = 0` the
bucket for `atoms` gets head `n` (or 0), otherwise the FLT is untouched
(only the neighbours' on-file links change). -/
theorem unlink_exact (a : Allocator) (h atoms p n : Int)
    (hp : p = 0 ∨ h2off p + 22 ≤ a.f.size)
    (hn : n = 0 ∨ h2off n + 22 ≤ a.f.size)
    (a1 : Allocator) (hok : a.unlink h atoms p n = .ok a1) :
    (p = 0 → a1.flt = a.flt.setHead (if n = 0 then 0 else n) atoms) ∧
    (p ≠ 0 → a1.flt = a.flt) := by
  unfold Allocator.unlink at hok
  split at hok
  · rename_i hpn
    cases hok
    refine ⟨fun _ => ?_, fun hc => absurd hpn.1 hc⟩
    show a.flt.setHead 0 atoms = a.flt.setHead (if n = 0 then 0 else n) atoms
    rw [if_pos hpn.2]
  · split at hok
    · rename_i hpn
      simp only [bind, Except.bind] at hok
      cases hprev : a.prev n 0 with
      | error e => rw [hprev] at hok; cases hok
      | ok ap =>
        rw [hprev] at hok
        cases hok
        obtain ⟨hf1, _, _, _⟩ := prev_frame a n 0 (by omega) ap hprev
        refine ⟨fun _ => ?_, fun hc => absurd hpn.1 hc⟩
        show ap.flt.setHead n atoms = a.flt.setHead (if n = 0 then 0 else n) atoms
        rw [hf1, if_neg hpn.2]
    · split at hok
      · rename_i hpn
        obtain ⟨hf1, _, _, _⟩ := next_frame a p 0 (by omega) a1 hok
        exact ⟨fun hc => absurd hc hpn.1, fun _ => hf1⟩
      · simp only [bind, Except.bind] at hok
        cases hnext : a.next p n with
        | error e => rw [hnext] at hok; cases hok
        | ok ap =>
          rw [hnext] at hok
          obtain ⟨hf1, _, hs1, _⟩ := next_frame a p n (by omega) ap hnext
          obtain ⟨hf2, _, _, _⟩ := prev_frame ap n p (by rw [hs1]; omega) a1 hok
          exact ⟨fun hc => absurd hc (by omega), fun _ => hf2.trans hf1⟩

/-- Pointwise head tracking through `unlink`: every bucket keeps its head
except, when `p = 0`, the bucket for `atoms`, whose head becomes `0` or
`n`. -/
theorem unlink_getD_head (a : Allocator) (h atoms p n : Int)
    (hp : p = 0 ∨ h2off p + 22 ≤ a.f.size)
    (hn : n = 0 ∨ h2off n + 22 ≤ a.f.size)
    (a1 : Allocator) (hok : a.unlink h atoms p n = .ok a1) :
    a1.flt.slots.length = a.flt.slots.length ∧
    ∀ j, j < a.flt.slots.length →
      ((p = 0 → j ≠ a.flt.putIndex atoms) →
        (a1.flt.slots.getD j ⟨0, 0⟩).head = (a.flt.slots.getD j ⟨0, 0⟩).head) ∧
      (p = 0 → j = a.flt.putIndex atoms →
        (a1.flt.slots.getD j ⟨0, 0⟩).head = 0 ∨ (a1.flt.slots.getD j ⟨0, 0⟩).head = n) := by
  obtain ⟨hflt0, hfltne⟩ := unlink_exact a h atoms p n hp hn a1 hok
  by_cases hp0 : p = 0
  · rw [hflt0 hp0]
    have hslots : (a.flt.setHead (if n = 0 then 0 else n) atoms).slots =
        a.flt.slots.set (a.flt.putIndex atoms)
          { a.flt.slots.getD (a.flt.putIndex atoms) ⟨0, 0⟩ with
            head := if n = 0 then 0 else n } := rfl
    rw [hslots]
    refine ⟨by simp, fun j hj => ⟨fun hne => ?_, fun _ hje => ?_⟩⟩
    · rw [getD_set_ne _ _ _ _ (hne hp0)]
    · subst hje
      rw [getD_set_self _ _ _ _ hj]
      by_cases hn0 : n = 0
      · rw [if_pos hn0]
        exact .inl rfl
      · rw [if_neg hn0]
        exact .inr rfl
  · rw [hfltne hp0]
    exact ⟨rfl, fun j hj => ⟨fun _ => rfl, fun hc _ => absurd hc hp0⟩⟩

/-- Any property `P` of bucket heads that holds for `0`, for `n`, and for
every head outside the unlinked block's own bucket, holds for every head
after `unlink`. -/
theorem unlink_head_prop (P : Int → Prop) (a : Allocator) (h atoms p n : Int)
    (hp : p = 0 ∨ h2off p + 22 ≤ a.f.size)
    (hn : n = 0 ∨ h2off n + 22 ≤ a.f.size)
    (hP0 : P 0) (hPn : P n)
    (hheads : ∀ j, j < a.flt.slots.length → (p = 0 → j ≠ a.flt.putIndex atoms) →
      P ((a.flt.slots.getD j ⟨0, 0⟩).head))
    (a1 : Allocator) (hok : a.unlink h atoms p n = .ok a1) :
    ∀ g ∈ a1.flt.slots.map FltSlot.head, P g := by
  obtain ⟨hlen, hpt⟩ := unlink_getD_head a h atoms p n hp hn a1 hok
  intro g hg
  obtain ⟨j, hj, hjh⟩ := mem_map_head_idx _ g hg
  rw [hlen] at hj
  by_cases hc : p = 0 ∧ j = a.flt.putIndex atoms
  · rcases (hpt j hj).2 hc.1 hc.2 with h0 | hnn
    · rw [← hjh, h0]
      exact hP0
    · rw [← hjh, hnn]
      exact hPn
  · have hcond : p = 0 → j ≠ a.flt.putIndex atoms := fun hpp hjj => hc ⟨hpp, hjj⟩
    rw [← hjh, (hpt j hj).1 hcond]
    exact hheads j hj hcond

theorem freeF_succ (fuel : Nat) (a : Allocator) (h src : Int) (ar : Bool) :
    Allocator.freeF (fuel + 1) a h src ar = (do
      let info ← a.nfo h
      let tag := info.1
      let atoms := info.2.1
      if tag = tagUsedRelocated then
        if ¬ar then .error .unexpReloc
        else do
          let a1 ← Allocator.freeF fuel a info.2.2.2 h false
          a1.free2 h atoms
      else if tag = tagFreeShort ∨ tag = tagFreeLong then .error .errINVAL
      else a.free2 h atoms) := rfl

/-- C3: `Free` dispatches a plain used block to `free2`, and `free2`
coalesces and truncates/links, spec-modelled block geometry.  With the
left-neighbour probe decoding as `(ltag, lat, lp, ln)`: a block with no
free neighbours is truncated off when it ends at the tail and linked into
its bucket otherwise; a free left neighbour is coalesced (the joint block
starts at `h - lat`) — truncated off at the tail, and no bucket head
addresses it afterwards; a free right neighbour `(rtag, rat, ..)` is
coalesced into a single block of `atoms + rat` (resp.
`lat + atoms + rat`) atoms which is linked as one block. -/
theorem free_coalesces_truncates_links (a : Allocator) (h atoms : Int)
    (ltag : Nat) (lat lp ln : Int) (rtag : Nat) (rat rp rn : Int)
    (hL : a.leftNfo h = .ok (ltag, lat, lp, ln)) :
    (∀ utag : Nat, ∀ up un : Int, 0 < h → h ≤ maxHandle →
      a.nfo h = .ok (utag, atoms, up, un) → utag ≠ tagUsedRelocated →
      utag ≠ tagFreeShort → utag ≠ tagFreeLong →
      a.Free h = a.free2 h atoms) ∧
    (ltag ≠ tagFreeShort → ltag ≠ tagFreeLong →
      h2off h + atoms * 16 = a.f.size →
      a.free2 h atoms = .ok { a with f := a.f.truncF (h2off h) } ∧
      ({ a with f := a.f.truncF (h2off h) } : Allocator).f.size = h2off h) ∧
    (∀ a1, ltag ≠ tagFreeShort → ltag ≠ tagFreeLong →
      h2off h + atoms * 16 ≠ a.f.size →
      a.nfo (h + atoms) = .ok (rtag, rat, rp, rn) →
      rtag ≠ tagFreeShort → rtag ≠ tagFreeLong →
      1 ≤ atoms → atoms ≤ maxHandle →
      h2off (h + atoms) ≤ a.f.size →
      (∀ g ∈ a.flt.slots.map FltSlot.head, headFits a h (h + atoms) g) →
      a.flt.putIndex atoms < a.flt.slots.length →
      a.free2 h atoms = .ok a1 →
      a1.f.size = a.f.size ∧ a1.flt.headOf atoms = h ∧
      a1.nfo h = .ok ((if atoms = 1 then tagFreeShort else tagFreeLong), atoms, 0,
        a.flt.headOf atoms)) ∧
    (∀ a1, (ltag = tagFreeShort ∨ ltag = tagFreeLong) → 1 ≤ lat →
      h2off h + atoms * 16 = a.f.size →
      (lp = 0 ∨ h2off lp + 22 ≤ a.f.size) → (ln = 0 ∨ h2off ln + 22 ≤ a.f.size) →
      h - lat ≠ 0 → h - lat ≠ ln →
      (∀ j, j < a.flt.slots.length → (lp = 0 → j ≠ a.flt.putIndex lat) →
        (a.flt.slots.getD j ⟨0, 0⟩).head ≠ h - lat) →
      a.free2 h atoms = .ok a1 →
      a1.f.size = h2off (h - lat) ∧
      (∀ g ∈ a1.flt.slots.map FltSlot.head, g ≠ h - lat)) ∧
    (∀ a1, ltag ≠ tagFreeShort → ltag ≠ tagFreeLong →
      h2off h + atoms * 16 ≠ a.f.size →
      a.nfo (h + atoms) = .ok (rtag, rat, rp, rn) →
      (rtag = tagFreeShort ∨ rtag = tagFreeLong) → 1 ≤ rat →
      1 ≤ atoms → atoms + rat ≤ maxHandle →
      h2off (h + (atoms + rat)) ≤ a.f.size →
      (rp = 0 ∨ h2off rp + 22 ≤ a.f.size) →
      headFits a h (h + (atoms + rat)) rn →
      (∀ j, j < a.flt.slots.length → (rp = 0 → j ≠ a.flt.putIndex rat) →
        headFits a h (h + (atoms + rat)) ((a.flt.slots.getD j ⟨0, 0⟩).head)) →
      a.flt.putIndex (atoms + rat) < a.flt.slots.length →
      a.free2 h atoms = .ok a1 →
      a1.f.size = a.f.size ∧ a1.flt.headOf (atoms + rat) = h ∧
      (∃ nx, a1.nfo h = .ok ((if atoms + rat = 1 then tagFreeShort else tagFreeLong),
        atoms + rat, 0, nx))) ∧
    (∀ a1, (ltag = tagFreeShort ∨ ltag = tagFreeLong) → 1 ≤ lat →
      h2off h + atoms * 16 ≠ a.f.size →
      a.nfo (h + atoms) = .ok (rtag, rat, rp, rn) →
      rtag ≠ tagFreeShort → rtag ≠ tagFreeLong →
      1 ≤ atoms → lat + atoms ≤ maxHandle →
      h2off (h - lat + (lat + atoms)) ≤ a.f.size →
      (lp = 0 ∨ h2off lp + 22 ≤ a.f.size) →
      headFits a (h - lat) (h - lat + (lat + atoms)) ln →
      (∀ j, j < a.flt.slots.length → (lp = 0 → j ≠ a.flt.putIndex lat) →
        headFits a (h - lat) (h - lat + (lat + atoms)) ((a.flt.slots.getD j ⟨0, 0⟩).head)) →
      a.flt.putIndex (lat + atoms) < a.flt.slots.length →
      a.free2 h atoms = .ok a1 →
      a1.f.size = a.f.size ∧ a1.flt.headOf (lat + atoms) = h - lat ∧
      (∃ nx, a1.nfo (h - lat) =
        .ok ((if lat + atoms = 1 then tagFreeShort else tagFreeLong), lat + atoms, 0, nx))) ∧
    (∀ a1 : Allocator, ∀ t2 : Nat, ∀ s2 rp2 rn2 : Int,
      (ltag = tagFreeShort ∨ ltag = tagFreeLong) → 1 ≤ lat →
      h2off h + atoms * 16 ≠ a.f.size →
      a.nfo (h + atoms) = .ok (rtag, rat, rp, rn) →
      (rtag = tagFreeShort ∨ rtag = tagFreeLong) → 1 ≤ rat →
      (∀ aU, a.unlink (h - lat) lat lp ln = .ok aU →
        aU.nfo (h + atoms) = .ok (t2, s2, rp2, rn2)) →
      1 ≤ atoms → lat + atoms + rat ≤ maxHandle →
      h2off (h - lat + (lat + atoms + rat)) ≤ a.f.size →
      (lp = 0 ∨ h2off lp + 22 ≤ a.f.size) →
      (rp2 = 0 ∨ h2off rp2 + 22 ≤ a.f.size) →
      headFits a (h - lat) (h - lat + (lat + atoms + rat)) ln →
      headFits a (h - lat) (h - lat + (lat + atoms + rat)) rn2 →
      (∀ j, j < a.flt.slots.length → (lp = 0 → j ≠ a.flt.putIndex lat) →
        (rp2 = 0 → j ≠ a.flt.putIndex rat) →
        headFits a (h - lat) (h - lat + (lat + atoms + rat))
          ((a.flt.slots.getD j ⟨0, 0⟩).head)) →
      a.flt.putIndex (lat + atoms + rat) < a.flt.slots.length →
      a.free2 h atoms = .ok a1 →
      a1.f.size = a.f.size ∧ a1.flt.headOf (lat + atoms + rat) = h - lat ∧
      (∃ nx, a1.nfo (h - lat) =
        .ok ((if lat + atoms + rat = 1 then tagFreeShort else tagFreeLong),
          lat + atoms + rat, 0, nx))) := by
  refine ⟨?_, ?_, ?_, ?_, ?_, ?_, ?_⟩
  · intro utag up un hh0 hhm hU hur hufs hufl
    unfold Allocator.Free
    rw [if_neg (show ¬(h ≤ 0 ∨ h > maxHandle) by omega)]
    rw [show (2 : Nat) = 1 + 1 from rfl, freeF_succ, hU]
    simp only [bind, Except.bind]
    rw [if_neg hur, if_neg (fun hc => hc.elim hufs hufl)]
  · intro hl1 hl2 htail
    refine ⟨?_, rfl⟩
    simp only [Allocator.free2, hL, bind, Except.bind, pure, Except.pure]
    rw [if_pos htail,
      if_pos (⟨hl1, hl2⟩ : ltag ≠ tagFreeShort ∧ ltag ≠ tagFreeLong),
      if_pos (show (0 : Nat) ≠ tagFreeShort ∧ (0 : Nat) ≠ tagFreeLong by decide),
      if_pos (⟨rfl, rfl⟩ : (0 : Int) = 0 ∧ (0 : Int) = 0),
      if_pos htail]
  · intro a1 hl1 hl2 htail hR hr1 hr2 hat hatm hfitB hheadsB hixB hok
    simp only [Allocator.free2, hL, bind, Except.bind, pure, Except.pure] at hok
    rw [if_neg htail, hR] at hok
    simp only [] at hok
    rw [if_pos (⟨hl1, hl2⟩ : ltag ≠ tagFreeShort ∧ ltag ≠ tagFreeLong),
      if_pos (⟨hr1, hr2⟩ : rtag ≠ tagFreeShort ∧ rtag ≠ tagFreeLong),
      if_pos (⟨rfl, rfl⟩ : (0 : Int) = 0 ∧ (0 : Int) = 0),
      if_neg htail] at hok
    obtain ⟨_, hszL, hheadL, hnfoL, _, _, _⟩ :=
      link_spec a h atoms hat hatm
        (by rcases headOf_mem a.flt atoms with h0 | hmem
            · omega
            · rcases hheadsB _ hmem with h0 | hb
              · omega
              · exact hb.1)
        (by rcases headOf_mem a.flt atoms with h0 | hmem
            · rw [h0]; unfold maxHandle; omega
            · rcases hheadsB _ hmem with h0 | hb
              · rw [h0]; unfold maxHandle; omega
              · exact hb.2.1)
        hfitB
        (by rcases headOf_mem a.flt atoms with h0 | hmem
            · exact .inl h0
            · rcases hheadsB _ hmem with h0 | hb
              · exact .inl h0
              · exact .inr ⟨hb.2.2.1, hb.2.2.2⟩)
        hixB a1 hok
    exact ⟨hszL, hheadL, hnfoL⟩
  · intro a1 hlf hlat htail hlp hln hx0 hxn ho hok
    simp only [Allocator.free2, hL, bind, Except.bind, pure, Except.pure] at hok
    rw [if_pos htail,
      if_neg (show ¬(ltag ≠ tagFreeShort ∧ ltag ≠ tagFreeLong) from
        fun hc => hlf.elim hc.1 hc.2),
      if_pos (show (0 : Nat) ≠ tagFreeShort ∧ (0 : Nat) ≠ tagFreeLong by decide),
      if_neg (show ¬(lat = 0 ∧ (0 : Int) = 0) by intro hc; omega),
      if_neg (show ¬lat = 0 by omega),
      if_pos (show (0 : Int) = 0 from rfl)] at hok
    cases hunl : a.unlink (h - lat) lat lp ln with
    | error e =>
      rw [hunl] at hok
      exact absurd hok (by simp)
    | ok aU =>
      rw [hunl] at hok
      simp only [] at hok
      rw [if_pos htail] at hok
      injection hok with ha1
      subst ha1
      refine ⟨rfl, ?_⟩
      show ∀ g ∈ aU.flt.slots.map FltSlot.head, g ≠ h - lat
      exact unlink_head_prop (fun g => g ≠ h - lat) a (h - lat) lat lp ln hlp hln
        (Ne.symm hx0) (Ne.symm hxn) ho aU hunl
  · intro a1 hl1 hl2 htail hR hrf hrat hat hatm hfitD hrp hrn hheadsD hixD hok
    simp only [Allocator.free2, hL, bind, Except.bind, pure, Except.pure] at hok
    rw [if_neg htail, hR] at hok
    simp only [] at hok
    rw [if_pos (⟨hl1, hl2⟩ : ltag ≠ tagFreeShort ∧ ltag ≠ tagFreeLong),
      if_neg (show ¬(rtag ≠ tagFreeShort ∧ rtag ≠ tagFreeLong) from
        fun hc => hrf.elim hc.1 hc.2),
      if_neg (show ¬((0 : Int) = 0 ∧ rat = 0) by intro hc; omega),
      if_pos (show (0 : Int) = 0 from rfl)] at hok
    cases hunl : a.unlink (h + atoms) rat rp rn with
    | error e =>
      rw [hunl] at hok
      exact absurd hok (by simp)
    | ok aU =>
      rw [hunl] at hok
      simp only [] at hok
      obtain ⟨hcU, hszU, hdataU, hminU, hheadsU⟩ :=
        unlink_frame a (h + atoms) rat rp rn hrp
          (by rcases hrn with h0 | hb
              · exact .inl h0
              · exact .inr hb.2.2.1)
          aU hunl
      have hcand : ∀ g ∈ aU.flt.slots.map FltSlot.head,
          headFits a h (h + (atoms + rat)) g :=
        unlink_head_prop _ a (h + atoms) rat rp rn hrp
          (by rcases hrn with h0 | hb
              · exact .inl h0
              · exact .inr hb.2.2.1)
          (.inl rfl) hrn hheadsD aU hunl
      obtain ⟨_, hszL, hheadL, hnfoL, _, _, _⟩ :=
        link_spec aU h (atoms + rat) (by omega) (by omega)
          (by rcases headOf_mem aU.flt (atoms + rat) with h0 | hmem
              · omega
              · rcases hcand _ hmem with h0 | hb
                · omega
                · exact hb.1)
          (by rcases headOf_mem aU.flt (atoms + rat) with h0 | hmem
              · rw [h0]; unfold maxHandle; omega
              · rcases hcand _ hmem with h0 | hb
                · rw [h0]; unfold maxHandle; omega
                · exact hb.2.1)
          (by rw [hszU]; exact hfitD)
          (by rw [hszU]
              rcases headOf_mem aU.flt (atoms + rat) with h0 | hmem
              · exact .inl h0
              · rcases hcand _ hmem with h0 | hb
                · exact .inl h0
                · exact .inr ⟨hb.2.2.1, hb.2.2.2⟩)
          (by rw [putIndex_congr aU.flt a.flt hminU,
                show aU.flt.slots.length = a.flt.slots.length from by
                  have hl := congrArg List.length hminU
                  simpa using hl]
              exact hixD)
          a1 hok
      exact ⟨hszL.trans hszU, hheadL, ⟨aU.flt.headOf (atoms + rat), hnfoL⟩⟩
  · intro a1 hlf hlat htail hR hr1 hr2 hat hatm hfitE hlp hln hheadsE hixE hok
    simp only [Allocator.free2, hL, bind, Except.bind, pure, Except.pure] at hok
    rw [if_neg htail, hR] at hok
    simp only [] at hok
    rw [if_neg (show ¬(ltag ≠ tagFreeShort ∧ ltag ≠ tagFreeLong) from
        fun hc => hlf.elim hc.1 hc.2),
      if_pos (⟨hr1, hr2⟩ : rtag ≠ tagFreeShort ∧ rtag ≠ tagFreeLong),
      if_neg (show ¬(lat = 0 ∧ (0 : Int) = 0) by intro hc; omega),
      if_neg (show ¬lat = 0 by omega),
      if_pos (show (0 : Int) = 0 from rfl)] at hok
    cases hunl : a.unlink (h - lat) lat lp ln with
    | error e =>
      rw [hunl] at hok
      exact absurd hok (by simp)
    | ok aU =>
      rw [hunl] at hok
      simp only [] at hok
      rw [if_neg htail] at hok
      obtain ⟨hcU, hszU, hdataU, hminU, hheadsU⟩ :=
        unlink_frame a (h - lat) lat lp ln hlp
          (by rcases hln with h0 | hb
              · exact .inl h0
              · exact .inr hb.2.2.1)
          aU hunl
      have hcand : ∀ g ∈ aU.flt.slots.map FltSlot.head,
          headFits a (h - lat) (h - lat + (lat + atoms)) g :=
        unlink_head_prop _ a (h - lat) lat lp ln hlp
          (by rcases hln with h0 | hb
              · exact .inl h0
              · exact .inr hb.2.2.1)
          (.inl rfl) hln hheadsE aU hunl
      obtain ⟨_, hszL, hheadL, hnfoL, _, _, _⟩ :=
        link_spec aU (h - lat) (lat + atoms) (by omega) (by omega)
          (by rcases headOf_mem aU.flt (lat + atoms) with h0 | hmem
              · omega
              · rcases hcand _ hmem with h0 | hb
                · omega
                · exact hb.1)
          (by rcases headOf_mem aU.flt (lat + atoms) with h0 | hmem
              · rw [h0]; unfold maxHandle; omega
              · rcases hcand _ hmem with h0 | hb
                · rw [h0]; unfold maxHandle; omega
                · exact hb.2.1)
          (by rw [hszU]; exact hfitE)
          (by rw [hszU]
              rcases headOf_mem aU.flt (lat + atoms) with h0 | hmem
              · exact .inl h0
              · rcases hcand _ hmem with h0 | hb
                · exact .inl h0
                · exact .inr ⟨hb.2.2.1, hb.2.2.2⟩)
          (by rw [putIndex_congr aU.flt a.flt hminU,
                show aU.flt.slots.length = a.flt.slots.length from by
                  have hl := congrArg List.length hminU
                  simpa using hl]
              exact hixE)
          a1 hok
      exact ⟨hszL.trans hszU, hheadL, ⟨aU.flt.headOf (lat + atoms), hnfoL⟩⟩
  · intro a1 t2 s2 rp2 rn2 hlf hlat htail hR hrf hrat hR2 hat hatm hfitF hlp hrp2 hln hrn2
      hheadsF hixF hok
    simp only [Allocator.free2, hL, bind, Except.bind, pure, Except.pure] at hok
    rw [if_neg htail, hR] at hok
    simp only [] at hok
    rw [if_neg (show ¬(ltag ≠ tagFreeShort ∧ ltag ≠ tagFreeLong) from
        fun hc => hlf.elim hc.1 hc.2),
      if_neg (show ¬(rtag ≠ tagFreeShort ∧ rtag ≠ tagFreeLong) from
        fun hc => hrf.elim hc.1 hc.2),
      if_neg (show ¬(lat = 0 ∧ rat = 0) by intro hc; omega),
      if_neg (show ¬lat = 0 by omega),
      if_neg (show ¬rat = 0 by omega)] at hok
    cases hunl1 : a.unlink (h - lat) lat lp ln with
    | error e =>
      rw [hunl1] at hok
      exact absurd hok (by simp)
    | ok aU =>
      rw [hunl1] at hok
      simp only [] at hok
      rw [hR2 aU hunl1] at hok
      simp only [] at hok
      obtain ⟨hcU, hszU, hdataU, hminU, hheadsU⟩ :=
        unlink_frame a (h - lat) lat lp ln hlp
          (by rcases hln with h0 | hb
              · exact .inl h0
              · exact .inr hb.2.2.1)
          aU hunl1
      cases hunl2 : aU.unlink (h + atoms) rat rp2 rn2 with
      | error e =>
        rw [hunl2] at hok
        exact absurd hok (by simp)
      | ok aV =>
        rw [hunl2] at hok
        simp only [] at hok
        obtain ⟨hcV, hszV, hdataV, hminV, hheadsV⟩ :=
          unlink_frame aU (h + atoms) rat rp2 rn2
            (by rw [hszU]; exact hrp2)
            (by rw [hszU]
                rcases hrn2 with h0 | hb
                · exact .inl h0
                · exact .inr hb.2.2.1)
            aV hunl2
        have hminV' : aV.flt.slots.map FltSlot.minSize = a.flt.slots.map FltSlot.minSize :=
          hminV.trans hminU
        obtain ⟨hlen1, hpt1⟩ := unlink_getD_head a (h - lat) lat lp ln hlp
          (by rcases hln with h0 | hb
              · exact .inl h0
              · exact .inr hb.2.2.1)
          aU hunl1
        obtain ⟨hlen2, hpt2⟩ := unlink_getD_head aU (h + atoms) rat rp2 rn2
          (by rw [hszU]; exact hrp2)
          (by rw [hszU]
              rcases hrn2 with h0 | hb
              · exact .inl h0
              · exact .inr hb.2.2.1)
          aV hunl2
        have hput_rat : aU.flt.putIndex rat = a.flt.putIndex rat :=
          putIndex_congr _ _ hminU rat
        have hcand : ∀ g ∈ aV.flt.slots.map FltSlot.head,
            headFits a (h - lat) (h - lat + (lat + atoms + rat)) g := by
          intro g hg
          obtain ⟨j, hj, hjh⟩ := mem_map_head_idx _ g hg
          rw [hlen2] at hj
          have hjU := hj
          rw [hlen1] at hj
          by_cases c2 : rp2 = 0 ∧ j = aU.flt.putIndex rat
          · rcases (hpt2 j hjU).2 c2.1 c2.2 with h0 | hnn
            · rw [← hjh, h0]
              exact .inl rfl
            · rw [← hjh, hnn]
              exact hrn2
          · have hcond2 : rp2 = 0 → j ≠ aU.flt.putIndex rat := fun hr hj0 => c2 ⟨hr, hj0⟩
            have e2 := (hpt2 j hjU).1 hcond2
            by_cases c1 : lp = 0 ∧ j = a.flt.putIndex lat
            · rcases (hpt1 j hj).2 c1.1 c1.2 with h0 | hnn
              · rw [← hjh, e2, h0]
                exact .inl rfl
              · rw [← hjh, e2, hnn]
                exact hln
            · have hcond1 : lp = 0 → j ≠ a.flt.putIndex lat := fun hl hj0 => c1 ⟨hl, hj0⟩
              rw [← hjh, e2, (hpt1 j hj).1 hcond1]
              exact hheadsF j hj hcond1
                (fun hr hj0 => hcond2 hr (by rw [hput_rat]; exact hj0))
        obtain ⟨_, hszL, hheadL, hnfoL, _, _, _⟩ :=
          link_spec aV (h - lat) (lat + atoms + rat) (by omega) (by omega)
            (by rcases headOf_mem aV.flt (lat + atoms + rat) with h0 | hmem
                · omega
                · rcases hcand _ hmem with h0 | hb
                  · omega
                  · exact hb.1)
            (by rcases headOf_mem aV.flt (lat + atoms + rat) with h0 | hmem
                · rw [h0]; unfold maxHandle; omega
                · rcases hcand _ hmem with h0 | hb
                  · rw [h0]; unfold maxHandle; omega
                  · exact hb.2.1)
            (by rw [hszV, hszU]; exact hfitF)
            (by rw [hszV, hszU]
                rcases headOf_mem aV.flt (lat + atoms + rat) with h0 | hmem
                · exact .inl h0
                · rcases hcand _ hmem with h0 | hb
                  · exact .inl h0
                  · exact .inr ⟨hb.2.2.1, hb.2.2.2⟩)
            (by rw [putIndex_congr aV.flt a.flt hminV',
                  show aV.flt.slots.length = a.flt.slots.length from by
                    have hl := congrArg List.length hminV'
                    simpa using hl]
                exact hixF)
            a1 hok
        exact ⟨hszL.trans (hszV.trans hszU), hheadL,
          ⟨aV.flt.headOf (lat + atoms + rat), hnfoL⟩⟩

/-- A 2-atom used short block (content length 20). -/
def usedBlk2 : List Nat := [20] ++ List.replicate 20 7 ++ List.replicate 10 0 ++ [0]

/-- A single-atom free block with the given prev/next links. -/
def freeShortBlk (p n : Int) : List Nat := [tagFreeShort] ++ h2b p ++ h2b n ++ [tagFreeShort]

/-- A 2-atom free long block with the given prev/next links. -/
def freeLongBlk2 (p n : Int) : List Nat :=
  [tagFreeLong] ++ h2b 2 ++ h2b p ++ h2b n ++ [0, 0] ++ h2b 2 ++ [tagFreeLong]

/-- Powers-of-two buckets with the `1+` bucket head set to `v`. -/
def slotsB1 (v : Int) : List FltSlot :=
  [⟨1, v⟩, ⟨2, 0⟩, ⟨4, 0⟩, ⟨8, 0⟩, ⟨16, 0⟩, ⟨32, 0⟩, ⟨64, 0⟩, ⟨128, 0⟩,
   ⟨256, 0⟩, ⟨512, 0⟩, ⟨1024, 0⟩, ⟨2048, 0⟩, ⟨4096, 0⟩, ⟨4112, 0⟩]

/-- Buckets with `1+` head 6 and `2+` head 7. -/
def slotsB1B2 : List FltSlot :=
  [⟨1, 6⟩, ⟨2, 7⟩, ⟨4, 0⟩, ⟨8, 0⟩, ⟨16, 0⟩, ⟨32, 0⟩, ⟨64, 0⟩, ⟨128, 0⟩,
   ⟨256, 0⟩, ⟨512, 0⟩, ⟨1024, 0⟩, ⟨2048, 0⟩, ⟨4096, 0⟩, ⟨4112, 0⟩]

/-- Two used blocks; freeing the second hits the tail with no free
neighbours. -/
def freeTailDemo : Allocator := ⟨fileOf (usedBlk1 ++ usedBlk1), ⟨po2slots⟩, false⟩

/-- Three used blocks; freeing the middle one links it. -/
def linkDemo : Allocator := ⟨fileOf (usedBlk1 ++ usedBlk1 ++ usedBlk1), ⟨po2slots⟩, false⟩

/-- `linkDemo` after `free2 2 1`. -/
def postIso : Allocator :=
  match linkDemo.free2 2 1 with
  | .ok x => x
  | .error _ => linkDemo

/-- A free single-atom block (head of the `1+` bucket) right before the
tail block. -/
def leftTailDemo : Allocator :=
  ⟨fileOf (usedBlk1 ++ freeShortBlk 0 0 ++ usedBlk1), ⟨slotsB1 2⟩, false⟩

/-- `leftTailDemo` after `free2 3 1`. -/
def postLeftTail : Allocator :=
  match leftTailDemo.free2 3 1 with
  | .ok x => x
  | .error _ => leftTailDemo

/-- Freeing the 2-atom block at handle 2 joins the free right neighbour
at handle 4 (a non-head list member; its list head is handle 5). -/
def rjDemo : Allocator :=
  ⟨fileOf (usedBlk1 ++ usedBlk2 ++ freeShortBlk 5 0 ++ freeShortBlk 0 4 ++ usedBlk1),
   ⟨slotsB1 5⟩, false⟩

/-- `rjDemo` after `free2 2 2`. -/
def postRj : Allocator :=
  match rjDemo.free2 2 2 with
  | .ok x => x
  | .error _ => rjDemo

/-- Freeing handle 3 joins the free left neighbour at handle 2 (a
non-head list member; its list head is handle 5); the join is not at the
tail. -/
def ljDemo : Allocator :=
  ⟨fileOf (usedBlk1 ++ freeShortBlk 5 0 ++ usedBlk1 ++ usedBlk1 ++ freeShortBlk 0 2 ++ usedBlk1),
   ⟨slotsB1 5⟩, false⟩

/-- `ljDemo` after `free2 3 1`. -/
def postLj : Allocator :=
  match ljDemo.free2 3 1 with
  | .ok x => x
  | .error _ => ljDemo

/-- Freeing handle 3 joins both neighbours: the free single-atom block at
handle 2 and the free 2-atom block at handles 4–5; their list heads are
handles 6 and 7. -/
def mjDemo : Allocator :=
  ⟨fileOf (usedBlk1 ++ freeShortBlk 6 0 ++ usedBlk1 ++ freeLongBlk2 7 0 ++ freeShortBlk 0 2 ++
     freeLongBlk2 0 4 ++ usedBlk1), ⟨slotsB1B2⟩, false⟩

/-- `mjDemo` after its first unlink (of the left neighbour). -/
def postMjU : Allocator :=
  match mjDemo.unlink 2 1 6 0 with
  | .ok x => x
  | .error _ => mjDemo

/-- `mjDemo` after `free2 3 1`. -/
def postMj : Allocator :=
  match mjDemo.free2 3 1 with
  | .ok x => x
  | .error _ => mjDemo

/-- A free single-atom block right before the tail block, sitting
mid-list: its bucket head is handle 1. -/
def leftTailDemoB : Allocator :=
  ⟨fileOf (freeShortBlk 0 2 ++ freeShortBlk 1 0 ++ usedBlk1), ⟨slotsB1 1⟩, false⟩

/-- `leftTailDemoB` after `free2 3 1`. -/
def postLeftTailB : Allocator :=
  match leftTailDemoB.free2 3 1 with
  | .ok x => x
  | .error _ => leftTailDemoB

/-- Right join where the free right neighbour at handle 4 is its bucket's
head. -/
def rjHdDemo : Allocator :=
  ⟨fileOf (usedBlk1 ++ usedBlk2 ++ freeShortBlk 0 0 ++ usedBlk1), ⟨slotsB1 4⟩, false⟩

/-- `rjHdDemo` after `free2 2 2`. -/
def postRjHd : Allocator :=
  match rjHdDemo.free2 2 2 with
  | .ok x => x
  | .error _ => rjHdDemo

/-- Left join (not at the tail) where the free left neighbour at handle 2
is its bucket's head. -/
def ehdDemo : Allocator :=
  ⟨fileOf (usedBlk1 ++ freeShortBlk 0 0 ++ usedBlk1 ++ usedBlk1), ⟨slotsB1 2⟩, false⟩

/-- `ehdDemo` after `free2 3 1`. -/
def postEhd : Allocator :=
  match ehdDemo.free2 3 1 with
  | .ok x => x
  | .error _ => ehdDemo

/-- Buckets with `1+` head 2 and `2+` head 4. -/
def slotsB1B2h : List FltSlot :=
  [⟨1, 2⟩, ⟨2, 4⟩, ⟨4, 0⟩, ⟨8, 0⟩, ⟨16, 0⟩, ⟨32, 0⟩, ⟨64, 0⟩, ⟨128, 0⟩,
   ⟨256, 0⟩, ⟨512, 0⟩, ⟨1024, 0⟩, ⟨2048, 0⟩, ⟨4096, 0⟩, ⟨4112, 0⟩]

/-- Middle join where both free neighbours are their buckets' heads. -/
def mjHdDemo : Allocator :=
  ⟨fileOf (usedBlk1 ++ freeShortBlk 0 0 ++ usedBlk1 ++ freeLongBlk2 0 0 ++ usedBlk1),
   ⟨slotsB1B2h⟩, false⟩

/-- `mjHdDemo` after its first unlink (of the left neighbour). -/
def postMjHU : Allocator :=
  match mjHdDemo.unlink 2 1 0 0 with
  | .ok x => x
  | .error _ => mjHdDemo

/-- `mjHdDemo` after `free2 3 1`. -/
def postMjHd : Allocator :=
  match mjHdDemo.free2 3 1 with
  | .ok x => x
  | .error _ => mjHdDemo

set_option maxRecDepth 16000 in
theorem free_coalesces_truncates_links_witness :
    freeTailDemo.free2 2 1 =
      .ok { freeTailDemo with f := freeTailDemo.f.truncF (h2off 2) } ∧
    linkDemo.Free 2 = linkDemo.free2 2 1 ∧
    postIso.f.size = linkDemo.f.size ∧
    postIso.flt.headOf 1 = 2 ∧
    postIso.nfo 2 = .ok (tagFreeShort, 1, 0, 0) ∧
    postLeftTail.f.size = h2off 2 ∧
    2 ∉ postLeftTail.flt.slots.map FltSlot.head ∧
    postLeftTailB.f.size = h2off 2 ∧
    2 ∉ postLeftTailB.flt.slots.map FltSlot.head ∧
    postRj.f.size = rjDemo.f.size ∧
    postRj.flt.headOf 3 = 2 ∧
    postRjHd.flt.headOf 3 = 2 ∧
    postLj.flt.headOf 2 = 2 ∧
    postEhd.flt.headOf 2 = 2 ∧
    postMj.flt.headOf 4 = 2 ∧
    postMjHd.flt.headOf 4 = 2 := by
  have hA := free_coalesces_truncates_links freeTailDemo 2 1 0 0 0 0 0 0 0 0 rfl
  have hB := free_coalesces_truncates_links linkDemo 2 1 0 0 0 0 1 1 0 0 rfl
  have hC := free_coalesces_truncates_links leftTailDemo 3 1 tagFreeShort 1 0 0 0 0 0 0 rfl
  have hCb := free_coalesces_truncates_links leftTailDemoB 3 1 tagFreeShort 1 1 0 0 0 0 0 rfl
  have hD := free_coalesces_truncates_links rjDemo 2 2 0 0 0 0 tagFreeShort 1 5 0 rfl
  have hDh := free_coalesces_truncates_links rjHdDemo 2 2 0 0 0 0 tagFreeShort 1 0 0 rfl
  have hE := free_coalesces_truncates_links ljDemo 3 1 tagFreeShort 1 5 0 1 1 0 0 rfl
  have hEh := free_coalesces_truncates_links ehdDemo 3 1 tagFreeShort 1 0 0 1 1 0 0 rfl
  have hF := free_coalesces_truncates_links mjDemo 3 1 tagFreeShort 1 6 0 tagFreeLong 2 7 0 rfl
  have hFh := free_coalesces_truncates_links mjHdDemo 3 1 tagFreeShort 1 0 0 tagFreeLong 2 0 0 rfl
  have hIso := hB.2.2.1 postIso (by decide) (by decide) (by decide) rfl (by decide) (by decide)
    (by decide) (by decide) (by decide) (by decide) (by decide) rfl
  have hoLT : ∀ j, j < leftTailDemo.flt.slots.length →
      (j = 0 ∨ (leftTailDemo.flt.slots.getD j ⟨0, 0⟩).head ≠ 3 - 1) := by decide
  have hLT := hC.2.2.2.1 postLeftTail (Or.inl rfl) (by decide) (by decide) (Or.inl rfl)
    (Or.inl rfl) (by decide) (by decide)
    (fun j hj hcnd => (hoLT j hj).resolve_left (fun h0 => hcnd rfl (h0.trans (by decide))))
    rfl
  have hoLTb : ∀ j, j < leftTailDemoB.flt.slots.length →
      (leftTailDemoB.flt.slots.getD j ⟨0, 0⟩).head ≠ 3 - 1 := by decide
  have hLTb := hCb.2.2.2.1 postLeftTailB (Or.inl rfl) (by decide) (by decide)
    (Or.inr (by decide)) (Or.inl rfl) (by decide) (by decide)
    (fun j hj _ => hoLTb j hj) rfl
  have hoRJ : ∀ j, j < rjDemo.flt.slots.length →
      headFits rjDemo 2 (2 + (2 + 1)) ((rjDemo.flt.slots.getD j ⟨0, 0⟩).head) := by decide
  have hRJ := hD.2.2.2.2.1 postRj (by decide) (by decide) (by decide) rfl (Or.inl rfl)
    (by decide) (by decide) (by decide) (by decide) (Or.inr (by decide)) (Or.inl rfl)
    (fun j hj _ => hoRJ j hj) (by decide) rfl
  have hoRJh : ∀ j, j < rjHdDemo.flt.slots.length → (j = 0 ∨
      headFits rjHdDemo 2 (2 + (2 + 1)) ((rjHdDemo.flt.slots.getD j ⟨0, 0⟩).head)) := by decide
  have hRJh := hDh.2.2.2.2.1 postRjHd (by decide) (by decide) (by decide) rfl (Or.inl rfl)
    (by decide) (by decide) (by decide) (by decide) (Or.inl rfl) (Or.inl rfl)
    (fun j hj hcnd => (hoRJh j hj).resolve_left (fun h0 => hcnd rfl (h0.trans (by decide))))
    (by decide) rfl
  have hoLJ : ∀ j, j < ljDemo.flt.slots.length →
      headFits ljDemo (3 - 1) (3 - 1 + (1 + 1))
        ((ljDemo.flt.slots.getD j ⟨0, 0⟩).head) := by decide
  have hLJ := hE.2.2.2.2.2.1 postLj (Or.inl rfl) (by decide) (by decide) rfl (by decide)
    (by decide) (by decide) (by decide) (by decide) (Or.inr (by decide)) (Or.inl rfl)
    (fun j hj _ => hoLJ j hj) (by decide) rfl
  have hoEh : ∀ j, j < ehdDemo.flt.slots.length → (j = 0 ∨
      headFits ehdDemo (3 - 1) (3 - 1 + (1 + 1))
        ((ehdDemo.flt.slots.getD j ⟨0, 0⟩).head)) := by decide
  have hEhd := hEh.2.2.2.2.2.1 postEhd (Or.inl rfl) (by decide) (by decide) rfl (by decide)
    (by decide) (by decide) (by decide) (by decide) (Or.inl rfl) (Or.inl rfl)
    (fun j hj hcnd => (hoEh j hj).resolve_left (fun h0 => hcnd rfl (h0.trans (by decide))))
    (by decide) rfl
  have hoMJ : ∀ j, j < mjDemo.flt.slots.length →
      headFits mjDemo (3 - 1) (3 - 1 + (1 + 1 + 2))
        ((mjDemo.flt.slots.getD j ⟨0, 0⟩).head) := by decide
  have hMJ := hF.2.2.2.2.2.2 postMj tagFreeLong 2 7 0 (Or.inl rfl) (by decide) (by decide) rfl
    (Or.inr rfl) (by decide)
    (by intro aU haU
        rw [show mjDemo.unlink (3 - 1) 1 6 0 = Except.ok postMjU from rfl] at haU
        injection haU with hx
        rw [← hx]
        exact rfl)
    (by decide) (by decide) (by decide) (Or.inr (by decide)) (Or.inr (by decide))
    (Or.inl rfl) (Or.inl rfl) (fun j hj _ _ => hoMJ j hj) (by decide) rfl
  have hoMJh : ∀ j, j < mjHdDemo.flt.slots.length → (j = 0 ∨ j = 1 ∨
      headFits mjHdDemo (3 - 1) (3 - 1 + (1 + 1 + 2))
        ((mjHdDemo.flt.slots.getD j ⟨0, 0⟩).head)) := by decide
  have hMJh := hFh.2.2.2.2.2.2 postMjHd tagFreeLong 2 0 0 (Or.inl rfl) (by decide) (by decide)
    rfl (Or.inr rfl) (by decide)
    (by intro aU haU
        rw [show mjHdDemo.unlink (3 - 1) 1 0 0 = Except.ok postMjHU from rfl] at haU
        injection haU with hx
        rw [← hx]
        exact rfl)
    (by decide) (by decide) (by decide) (Or.inl rfl) (Or.inl rfl)
    (Or.inl rfl) (Or.inl rfl)
    (fun j hj hc1 hc2 =>
      ((hoMJh j hj).resolve_left (fun h0 => hc1 rfl (h0.trans (by decide)))).resolve_left
        (fun h1 => hc2 rfl (h1.trans (by decide))))
    (by decide) rfl
  refine ⟨(hA.2.1 (by decide) (by decide) (by decide)).1,
    hB.1 1 0 0 (by decide) (by decide) rfl (by decide) (by decide) (by decide),
    hIso.1, hIso.2.1, hIso.2.2, hLT.1, fun hmem => hLT.2 2 hmem rfl,
    hLTb.1, fun hmem => hLTb.2 2 hmem rfl, hRJ.1, hRJ.2.1, hRJh.2.1,
    hLJ.2.1, hEhd.2.1, hMJ.2.1, hMJh.2.1⟩
